import Mathlib

/-!
Verification development for the hft-orderbook-engine core: a shallow
embedding, in Lean 4, of the order book (`src/orderbook/order_book.cpp`),
price level (`src/core/price_level.h`), matching engine
(`src/matching/matching_engine.cpp`), order gateway
(`src/gateway/order_gateway.cpp`) and SPSC ring buffer
(`src/transport/spsc_ring_buffer.h`), together with theorems about the
properties stated in the specification.

Machine integers are embedded as `Nat` (for the unsigned 64-bit `Quantity`,
`OrderId`, `Timestamp`, and `size_t` values) and `Int` (for the signed
64-bit fixed-point `Price`).  Wherever the C++ performs unsigned
arithmetic that can wrap, the embedding applies the wrap explicitly with
`% 2 ^ 64` (`add64` / `sub64` below); `uint32_t` counters use `% 2 ^ 32`.
The intrusive doubly-linked FIFO of a price level is embedded as a Lean
list in head-to-tail order; the open-addressed order index
(`FlatOrderMap`), which by the book's lockstep invariant contains exactly
the resting orders, is embedded as lookup over the levels themselves.
-/

namespace HftOrderBook

/-- `2 ^ 64`, the modulus of the C++ `uint64_t` / `size_t` arithmetic. -/
def U64 : Nat := 2 ^ 64

/-- `2 ^ 32`, the modulus of the C++ `uint32_t` arithmetic. -/
def U32 : Nat := 2 ^ 32

/-- Unsigned 64-bit addition `a + b` with wrap-around. -/
def add64 (a b : Nat) : Nat := (a + b) % U64

/-- Unsigned 64-bit subtraction `a - b` (with wrap-around for `a < b`),
for operands already reduced below `2 ^ 64`. -/
def sub64 (a b : Nat) : Nat := (a + U64 - b % U64) % U64

/-- Unsigned 32-bit increment. -/
def inc32 (a : Nat) : Nat := (a + 1) % U32

/-- Unsigned 32-bit decrement. -/
def dec32 (a : Nat) : Nat := (a + U32 - 1 % U32) % U32

/-- `Side` from `src/core/types.h`. -/
inductive Side where
  | buy
  | sell
deriving DecidableEq, Repr, Fintype

/-- Opposite side (as computed in `check_fok_feasibility` and the match loop). -/
def Side.opposite : Side → Side
  | .buy => .sell
  | .sell => .buy

/-- `OrderType` from `src/core/types.h`. -/
inductive OrderType where
  | limit
  | market
  | ioc
  | fok
  | gtc
  | iceberg
deriving DecidableEq, Repr

/-- `TimeInForce` from `src/core/types.h`. -/
inductive TimeInForce where
  | gtc
  | ioc
  | fok
  | day
deriving DecidableEq, Repr

/-- `OrderStatus` from `src/core/types.h`. -/
inductive OrderStatus where
  | new
  | accepted
  | partialFill
  | filled
  | cancelled
  | rejected
deriving DecidableEq, Repr

/-- `Order` from `src/core/order.h`.  The two intrusive links `prev`/`next`
are represented by the order's position in its price level's list. -/
structure Order where
  order_id : Nat
  participant_id : Nat
  instrument_id : Nat
  side : Side
  type : OrderType
  time_in_force : TimeInForce
  status : OrderStatus
  price : Int
  quantity : Nat
  visible_quantity : Nat
  iceberg_slice_qty : Nat
  filled_quantity : Nat
  timestamp : Nat
deriving DecidableEq, Repr

/-- `Order::remaining_quantity`: `quantity - filled_quantity` in `uint64_t`. -/
def Order.remaining_quantity (o : Order) : Nat :=
  sub64 o.quantity o.filled_quantity

/-- `Order::remaining_visible`: `visible_quantity - filled_quantity` in `uint64_t`. -/
def Order.remaining_visible (o : Order) : Nat :=
  sub64 o.visible_quantity o.filled_quantity

/-- `PriceLevel` from `src/core/price_level.h`.  `orders` is the intrusive
doubly-linked FIFO, head first. -/
structure PriceLevel where
  price : Int
  total_quantity : Nat
  order_count : Nat
  orders : List Order
deriving DecidableEq, Repr

/-- A zero-initialized (`calloc`ed) empty price level. -/
def PriceLevel.zero : PriceLevel := ⟨0, 0, 0, []⟩

/-- `PriceLevel::empty`: `head == nullptr`. -/
def PriceLevel.empty (l : PriceLevel) : Bool := l.orders.isEmpty

/-- `PriceLevel::front`: the head of the FIFO. -/
def PriceLevel.front (l : PriceLevel) : Option Order := l.orders.head?

/-- `PriceLevel::add_order`: append at the tail, add the order's current
remaining quantity to `total_quantity`, increment `order_count`. -/
def PriceLevel.add_order (l : PriceLevel) (o : Order) : PriceLevel :=
  { l with
      orders := l.orders ++ [o]
      total_quantity := add64 l.total_quantity o.remaining_quantity
      order_count := inc32 l.order_count }

/-- Drop the first list entry with the given order id (the unlink of the
uniquely identified intrusive node). -/
def eraseById : List Order → Nat → List Order
  | [], _ => []
  | o :: rest, i => if o.order_id = i then rest else o :: eraseById rest i

/-- `PriceLevel::remove_order`: unlink the given resting order, subtract its
current remaining quantity from `total_quantity`, decrement `order_count`. -/
def PriceLevel.remove_order (l : PriceLevel) (o : Order) : PriceLevel :=
  { l with
      orders := eraseById l.orders o.order_id
      total_quantity := sub64 l.total_quantity o.remaining_quantity
      order_count := dec32 l.order_count }

/-- `AddResult` from `src/orderbook/order_book.h`. -/
structure AddResult where
  success : Bool
deriving DecidableEq, Repr

/-- `OrderBook` from `src/orderbook/order_book.h`.  `best_bid_idx` /
`best_ask_idx` use `Option Nat` for `size_t` with `INVALID_INDEX` = `none`.
The `FlatOrderMap order_map_` is not stored separately: by the book's
lockstep invariant it contains exactly the orders resting on the levels,
so lookup is embedded as a scan of the levels. -/
structure OrderBook where
  min_price : Int
  max_price : Int
  tick_size : Int
  num_levels : Nat
  bid_levels : List PriceLevel
  ask_levels : List PriceLevel
  best_bid_idx : Option Nat
  best_ask_idx : Option Nat
  order_count : Nat
deriving DecidableEq, Repr

/-- The `OrderBook` constructor: `num_levels_ = (max-min)/tick + 1`, all
levels `calloc`-zeroed, best indices invalid. -/
def OrderBook.init (minP maxP tick : Int) : OrderBook :=
  let n : Nat := ((maxP - minP) / tick).toNat + 1
  { min_price := minP
    max_price := maxP
    tick_size := tick
    num_levels := n
    bid_levels := List.replicate n PriceLevel.zero
    ask_levels := List.replicate n PriceLevel.zero
    best_bid_idx := none
    best_ask_idx := none
    order_count := 0 }

/-- `OrderBook::is_valid_price`. -/
def OrderBook.is_valid_price (b : OrderBook) (p : Int) : Bool :=
  b.min_price ≤ p && p ≤ b.max_price && (p - b.min_price) % b.tick_size = 0

/-- `OrderBook::price_to_index`. -/
def OrderBook.price_to_index (b : OrderBook) (p : Int) : Nat :=
  ((p - b.min_price) / b.tick_size).toNat

/-- The level array of one side. -/
def OrderBook.levelsOf (b : OrderBook) : Side → List PriceLevel
  | .buy => b.bid_levels
  | .sell => b.ask_levels

/-- Read the level at an index (array subscript). -/
def OrderBook.levelAt (b : OrderBook) (s : Side) (i : Nat) : PriceLevel :=
  (b.levelsOf s).getD i PriceLevel.zero

/-- Write back the level at an index (array subscript). -/
def OrderBook.setLevel (b : OrderBook) (s : Side) (i : Nat)
    (l : PriceLevel) : OrderBook :=
  match s with
  | .buy => { b with bid_levels := b.bid_levels.set i l }
  | .sell => { b with ask_levels := b.ask_levels.set i l }

/-- First order with the given id in a list of levels, with its level index. -/
def findInLevels (ls : List PriceLevel) (id : Nat) : Option (Nat × Order) :=
  go ls 0
where
  go : List PriceLevel → Nat → Option (Nat × Order)
    | [], _ => none
    | l :: rest, i =>
      match l.orders.find? (fun o => o.order_id = id) with
      | some o => some (i, o)
      | none => go rest (i + 1)

/-- `OrderBook::find_order` (via `order_map_.find`): the resting order with
the given id, if any, together with its side and level index.  By the
lockstep invariant the map's contents are exactly the resting orders. -/
def OrderBook.findOrder (b : OrderBook) (id : Nat) :
    Option (Side × Nat × Order) :=
  match findInLevels b.bid_levels id with
  | some (i, o) => some (Side.buy, i, o)
  | none =>
    match findInLevels b.ask_levels id with
    | some (i, o) => some (Side.sell, i, o)
    | none => none

/-- The mutation performed by a successful `OrderBook::add_order` (after
the price and order-index checks have passed): set the level's price,
append to its FIFO (storing the order with status `Accepted`, set through
the aliasing pointer after insertion), bump the order count, and update
the cached best index if the new level's index beats it. -/
def OrderBook.add_order_success (b : OrderBook) (o : Order) : OrderBook :=
  let idx := b.price_to_index o.price
  let stored := { o with status := OrderStatus.accepted }
  let l := b.levelAt o.side idx
  let l' := PriceLevel.add_order { l with price := o.price } stored
  let b' := b.setLevel o.side idx l'
  let b'' := { b' with order_count := b'.order_count + 1 }
  match o.side with
  | .buy =>
    let best :=
      match b''.best_bid_idx with
      | none => some idx
      | some cur => if idx > cur then some idx else some cur
    { b'' with best_bid_idx := best }
  | .sell =>
    let best :=
      match b''.best_ask_idx with
      | none => some idx
      | some cur => if idx < cur then some idx else some cur
    { b'' with best_ask_idx := best }

/-- `OrderBook::add_order`: validate price, insert into the order index
(fails on id 0 or duplicate), then perform the structural insertion. -/
def OrderBook.add_order (b : OrderBook) (o : Order) : AddResult × OrderBook :=
  if ¬ b.is_valid_price o.price then (⟨false⟩, b)
  else if o.order_id = 0 ∨ (b.findOrder o.order_id).isSome then (⟨false⟩, b)
  else (⟨true⟩, b.add_order_success o)

/-- `OrderBook::update_best_bid_after_remove`: scan down from
`emptied_idx - 1` for the first non-empty bid level; `INVALID_INDEX` on miss. -/
def scanDown (ls : List PriceLevel) : Nat → Option Nat
  | 0 => if ¬ (ls.getD 0 PriceLevel.zero).empty then some 0 else none
  | j + 1 =>
    if ¬ (ls.getD (j + 1) PriceLevel.zero).empty then some (j + 1)
    else scanDown ls j

/-- The ascending scan of `update_best_ask_after_remove`, with the
remaining iteration count `n - i` as a structural fuel argument (the C++
`for (i; i < n; ++i)` loop). -/
def scanUpAux (ls : List PriceLevel) : Nat → Nat → Option Nat
  | 0, _ => none
  | fuel + 1, i =>
    if ¬ (ls.getD i PriceLevel.zero).empty then some i
    else scanUpAux ls fuel (i + 1)

/-- `OrderBook::update_best_ask_after_remove`: scan up from `emptied_idx + 1`
for the first non-empty ask level; `INVALID_INDEX` on miss. -/
def scanUp (ls : List PriceLevel) (n : Nat) (i : Nat) : Option Nat :=
  scanUpAux ls (n - i) i

/-- `OrderBook::update_best_bid_after_remove`. -/
def OrderBook.update_best_bid_after_remove (b : OrderBook) (idx : Nat) :
    OrderBook :=
  match idx with
  | 0 => { b with best_bid_idx := none }
  | j + 1 => { b with best_bid_idx := scanDown b.bid_levels j }

/-- `OrderBook::update_best_ask_after_remove`. -/
def OrderBook.update_best_ask_after_remove (b : OrderBook) (idx : Nat) :
    OrderBook :=
  { b with best_ask_idx := scanUp b.ask_levels b.num_levels (idx + 1) }

/-- `OrderBook::remove_order`: unlink from the level at the order's price,
erase from the order index, decrement the count; if the level emptied and
was the cached best of its side, rescan for the new best. -/
def OrderBook.remove_order (b : OrderBook) (o : Order) : OrderBook :=
  let idx := b.price_to_index o.price
  let l' := PriceLevel.remove_order (b.levelAt o.side idx) o
  let b' := b.setLevel o.side idx l'
  let b'' := { b' with order_count := b'.order_count - 1 }
  if l'.empty then
    match o.side with
    | .buy =>
      if b''.best_bid_idx = some idx then
        b''.update_best_bid_after_remove idx
      else b''
    | .sell =>
      if b''.best_ask_idx = some idx then
        b''.update_best_ask_after_remove idx
      else b''
  else b''

/-- `OrderBook::cancel_order`: look up by id; unlink and erase; return the
cancelled order (status set through the aliasing pointer). -/
def OrderBook.cancel_order (b : OrderBook) (id : Nat) :
    Option Order × OrderBook :=
  match b.findOrder id with
  | none => (none, b)
  | some (_, _, o) =>
    (some { o with status := OrderStatus.cancelled }, b.remove_order o)

/-- `OrderBook::best_bid_level` (and `best_bid`): the cached best bid level. -/
def OrderBook.best_bid_level (b : OrderBook) : Option PriceLevel :=
  match b.best_bid_idx with
  | none => none
  | some i => some (b.levelAt Side.buy i)

/-- `OrderBook::best_ask_level` (and `best_ask`): the cached best ask level. -/
def OrderBook.best_ask_level (b : OrderBook) : Option PriceLevel :=
  match b.best_ask_idx with
  | none => none
  | some i => some (b.levelAt Side.sell i)

/-- The descending bid walk of `OrderBook::available_quantity`:
`for (i = best_bid;; --i) { total += q[i]; if (i == min_idx || i == 0) break; }`. -/
def bidWalk (ls : List PriceLevel) (min_idx : Nat) : Nat → Nat → Nat
  | 0, acc => add64 acc (ls.getD 0 PriceLevel.zero).total_quantity
  | j + 1, acc =>
    let acc' := add64 acc (ls.getD (j + 1) PriceLevel.zero).total_quantity
    if j + 1 = min_idx then acc'
    else bidWalk ls min_idx j acc'

/-- The ascending ask walk of `OrderBook::available_quantity`, with the
remaining iteration count `n - i` as structural fuel (`fuel = 0` iff
`i ≥ n`, the loop's second bound):
`for (i = best_ask; i <= max_idx && i < num_levels; ++i) total += q[i];`. -/
def askWalkAux (ls : List PriceLevel) (max_idx : Nat) :
    Nat → Nat → Nat → Nat
  | 0, _, acc => acc
  | fuel + 1, i, acc =>
    if i ≤ max_idx then
      askWalkAux ls max_idx fuel (i + 1)
        (add64 acc (ls.getD i PriceLevel.zero).total_quantity)
    else acc

/-- The ascending ask walk of `OrderBook::available_quantity`. -/
def askWalk (ls : List PriceLevel) (max_idx n : Nat) (i : Nat) (acc : Nat) :
    Nat :=
  askWalkAux ls max_idx (n - i) i acc

/-- `OrderBook::available_quantity`: walk the given side's flat array from
its best index toward `limit_price` (clamped into range), summing
`total_quantity`. -/
def OrderBook.available_quantity (b : OrderBook) (s : Side) (limit : Int) :
    Nat :=
  match s with
  | .sell =>
    match b.best_ask_idx with
    | none => 0
    | some s0 =>
      let max_idx :=
        b.price_to_index (if limit > b.max_price then b.max_price else limit)
      askWalk b.ask_levels max_idx b.num_levels s0 0
  | .buy =>
    match b.best_bid_idx with
    | none => 0
    | some s0 =>
      let min_idx :=
        b.price_to_index (if limit < b.min_price then b.min_price else limit)
      bidWalk b.bid_levels min_idx s0 0

/-! ## Matching engine (`src/matching/matching_engine.cpp`) -/

/-- `Trade` from `src/core/trade.h`: six 8-byte fields, 48 bytes. -/
structure Trade where
  trade_id : Nat
  buy_order_id : Nat
  sell_order_id : Nat
  price : Int
  quantity : Nat
  timestamp : Nat
deriving DecidableEq, Repr

/-- Modelled from the spec: `MatchStatus`, declared in
`src/matching/match_result.h` which is not under src/ (it is included by
`matching_engine.h` and used throughout `matching_engine.cpp`,
`order_gateway.cpp` and the tests); the spec's match-result entity lists
exactly these statuses. -/
inductive MatchStatus where
  | filled
  | partialFill
  | resting
  | cancelled
  | rejected
  | selfTradePrevented
  | modified
deriving DecidableEq, Repr

/-- Modelled from the spec: `MatchResult`, declared in
`src/matching/match_result.h` which is not under src/; the spec's
match-result entity carries a status, an inline trade array with its
count (embedded as a list: `trade_count = trades.length`), the filled
quantity and the remaining quantity. -/
structure MatchResult where
  status : MatchStatus
  trades : List Trade
  filled_quantity : Nat
  remaining_quantity : Nat
deriving DecidableEq, Repr

/-- Modelled from the spec: `MAX_TRADES_PER_MATCH`, declared in
`src/matching/match_result.h` which is not under src/; the spec bounds
fills at 64 per submission. -/
def MAX_TRADES_PER_MATCH : Nat := 64

/-- `SelfTradePreventionMode` (declaration site not in src/; the modes and
their semantics are spec §4.5.3 and `MatchingEngine::handle_self_trade`). -/
inductive SelfTradePreventionMode where
  | none
  | cancelNewest
  | cancelOldest
  | cancelBoth
deriving DecidableEq, Repr

/-- The matching engine's mutable collaborators: the book, the order
arena's free-slot count (`MemoryPool<Order>`), and the monotonic trade-id
counter. -/
structure EngineState where
  book : OrderBook
  pool_free : Nat
  trade_id_counter : Nat
deriving DecidableEq, Repr

/-- `MatchingEngine::price_crosses`. -/
def price_crosses (o : Order) (level : PriceLevel) : Bool :=
  if o.type = OrderType.market then true
  else
    match o.side with
    | .buy => o.price ≥ level.price
    | .sell => o.price ≤ level.price

/-- `MatchingEngine::check_fok_feasibility`. -/
def check_fok_feasibility (b : OrderBook) (o : Order) : Bool :=
  b.available_quantity o.side.opposite o.price ≥ o.quantity

/-- `MatchingEngine::replenish_iceberg`: slide the visible window. -/
def replenish_iceberg (o : Order) : Order :=
  let remaining := o.remaining_quantity
  let new_visible := min o.iceberg_slice_qty remaining
  { o with visible_quantity := add64 o.filled_quantity new_visible }

/-- The `Trade` record populated by `MatchingEngine::execute_fill`: the
fresh trade id, buy/sell order ids chosen by the aggressive order's side,
the resting order's price, the fill quantity, and the aggressive order's
timestamp. -/
def fillTrade (aggressive resting : Order) (fill_qty tid : Nat) : Trade :=
  { trade_id := tid
    buy_order_id :=
      if aggressive.side = Side.buy then aggressive.order_id
      else resting.order_id
    sell_order_id :=
      if aggressive.side = Side.sell then aggressive.order_id
      else resting.order_id
    price := resting.price
    quantity := fill_qty
    timestamp := aggressive.timestamp }

/-- `MatchingEngine::execute_fill`: decrement the level quantity, bump both
orders' filled quantities and statuses, and record a trade at the resting
order's price with the aggressive order's timestamp.  Returns the updated
aggressive order, resting order, level, trade-id counter, and result. -/
def execute_fill (aggressive resting : Order) (fill_qty : Nat)
    (level : PriceLevel) (ctr : Nat) (res : MatchResult) :
    Order × Order × PriceLevel × Nat × MatchResult :=
  let level' :=
    { level with total_quantity := sub64 level.total_quantity fill_qty }
  let aggr1 :=
    { aggressive with
        filled_quantity := add64 aggressive.filled_quantity fill_qty }
  let rest1 :=
    { resting with filled_quantity := add64 resting.filled_quantity fill_qty }
  let aggr2 :=
    { aggr1 with
        status :=
          if aggr1.remaining_quantity = 0 then OrderStatus.filled
          else OrderStatus.partialFill }
  let rest2 :=
    { rest1 with
        status :=
          if rest1.remaining_quantity = 0 then OrderStatus.filled
          else OrderStatus.partialFill }
  let tid := ctr + 1
  let res' :=
    { res with
        trades := res.trades ++ [fillTrade aggressive resting fill_qty tid]
        filled_quantity := add64 res.filled_quantity fill_qty }
  (aggr2, rest2, level', tid, res')

/-- `MatchingEngine::match_order`, fused with the per-level inner walk: each
recursive step is one iteration of the inner FIFO walk (re-fetching the
best opposite level, which the C++ captures per outer iteration; the two
are equivalent because the captured pointer is the array slot at the best
index, whose contents the inner loop re-reads each iteration).  `fuel`
bounds the recursion; the C++ loop terminates on every state reachable
through the public interface, and `submit_order` passes fuel exceeding the
maximum number of iterations of any such run. -/
def match_loop (stp : SelfTradePreventionMode) :
    Nat → EngineState → Order → MatchResult →
    EngineState × Order × MatchResult
  | 0, st, o, res => (st, o, res)
  | fuel + 1, st, o, res =>
    if o.remaining_quantity = 0 ∨ ¬ res.trades.length < MAX_TRADES_PER_MATCH
    then (st, o, res)
    else
      let idx? :=
        match o.side with
        | .buy => st.book.best_ask_idx
        | .sell => st.book.best_bid_idx
      match idx? with
      | none => (st, o, res)
      | some idx =>
        let oppSide := o.side.opposite
        let level := st.book.levelAt oppSide idx
        if ¬ price_crosses o level then (st, o, res)
        else
          match level.orders with
          | [] => match_loop stp fuel st o res
          | resting :: tailOrders =>
            if stp ≠ SelfTradePreventionMode.none ∧
               o.participant_id = resting.participant_id then
              match stp with
              | .cancelNewest =>
                (st, { o with status := OrderStatus.cancelled },
                 { res with
                     status := MatchStatus.selfTradePrevented
                     remaining_quantity := o.remaining_quantity })
              | .cancelOldest =>
                let st' :=
                  { st with
                      book := st.book.remove_order resting
                      pool_free := st.pool_free + 1 }
                match_loop stp fuel st' o res
              | .cancelBoth =>
                let st' :=
                  { st with
                      book := st.book.remove_order resting
                      pool_free := st.pool_free + 1 }
                (st', { o with status := OrderStatus.cancelled },
                 { res with
                     status := MatchStatus.selfTradePrevented
                     remaining_quantity := o.remaining_quantity })
              | .none => match_loop stp fuel st o res
            else
              let resting_available := resting.remaining_visible
              let fill_qty := min o.remaining_quantity resting_available
              let ef :=
                execute_fill o resting fill_qty level st.trade_id_counter res
              let o' := ef.1
              let rest' := ef.2.1
              let level' := ef.2.2.1
              let ctr' := ef.2.2.2.1
              let res' := ef.2.2.2.2
              let level'' := { level' with orders := rest' :: tailOrders }
              let st' :=
                { st with
                    book := st.book.setLevel oppSide idx level''
                    trade_id_counter := ctr' }
              if rest'.remaining_quantity = 0 then
                let st'' :=
                  { st' with
                      book := st'.book.remove_order rest'
                      pool_free := st'.pool_free + 1 }
                match_loop stp fuel st'' o' res'
              else if rest'.remaining_visible = 0 ∧
                      rest'.type = OrderType.iceberg then
                let b1 := st'.book.remove_order rest'
                let rest'' := replenish_iceberg rest'
                let b2 := (b1.add_order rest'').2
                match_loop stp fuel { st' with book := b2 } o' res'
              else
                match_loop stp fuel st' o' res'

/-- Fuel passed to `match_loop` by `submit_order`: strictly more than the
number of iterations of any run from a book with `order_count` resting
orders (at most `MAX_TRADES_PER_MATCH` fills plus one STP removal per
resting order). -/
def submitFuel (st : EngineState) : Nat :=
  MAX_TRADES_PER_MATCH + st.book.order_count + 1

/-- `MatchingEngine::submit_order`. -/
def submit_order (stp : SelfTradePreventionMode) (st : EngineState)
    (o : Order) : EngineState × MatchResult :=
  let res0 : MatchResult :=
    { status := MatchStatus.rejected
      trades := []
      filled_quantity := 0
      remaining_quantity := o.remaining_quantity }
  if o.type ≠ OrderType.market ∧ ¬ st.book.is_valid_price o.price then
    ({ st with pool_free := st.pool_free + 1 }, res0)
  else if o.type = OrderType.fok ∧ ¬ check_fok_feasibility st.book o then
    ({ st with pool_free := st.pool_free + 1 }, res0)
  else
    let mres := match_loop stp (submitFuel st) st o res0
    let st1 := mres.1
    let o1 := mres.2.1
    let res1 := mres.2.2
    let res2 := { res1 with remaining_quantity := o1.remaining_quantity }
    if res2.status = MatchStatus.selfTradePrevented then
      ({ st1 with pool_free := st1.pool_free + 1 }, res2)
    else if o1.remaining_quantity = 0 then
      ({ st1 with pool_free := st1.pool_free + 1 },
       { res2 with status := MatchStatus.filled })
    else if o1.type = OrderType.market ∨ o1.type = OrderType.ioc then
      ({ st1 with pool_free := st1.pool_free + 1 },
       { res2 with status := MatchStatus.cancelled })
    else if o1.type = OrderType.fok then
      ({ st1 with pool_free := st1.pool_free + 1 },
       { res2 with status := MatchStatus.rejected })
    else
      let res3 :=
        if res2.filled_quantity > 0 then
          { res2 with status := MatchStatus.partialFill }
        else { res2 with status := MatchStatus.resting }
      let o2 :=
        if res2.filled_quantity > 0 then
          { o1 with status := OrderStatus.partialFill }
        else o1
      ({ st1 with book := (st1.book.add_order o2).2 }, res3)

/-- `MatchingEngine::cancel_order`. -/
def engine_cancel_order (st : EngineState) (id : Nat) :
    EngineState × Bool :=
  match st.book.cancel_order id with
  | (none, _) => (st, false)
  | (some _, b') =>
    ({ st with book := b', pool_free := st.pool_free + 1 }, true)

/-- Modelled from the spec: `MatchingEngine::modify_order` (spec §4.5.2)
together with the book's `modify` (spec §4.4) — both are called from
`order_gateway.cpp` and exercised by the tests, but their implementation
file is not under src/.  Per the spec: validate the new price, look up the
order, reject if `new_quantity ≤ filled_quantity`; otherwise unlink the
order and erase it from the index, rewrite `price`, `quantity`,
`visible_quantity`, `timestamp` in place (the spec leaves the rewritten
`visible_quantity` value open; this model sets it to `new_quantity`, making
`remaining_visible = remaining_quantity`), preserve `filled_quantity` and
the order id, resubmit through the normal matching path, and report
`Modified` when no fills occur. -/
def modify_order (stp : SelfTradePreventionMode) (st : EngineState)
    (id : Nat) (new_price : Int) (new_qty : Nat) (new_ts : Nat) :
    EngineState × MatchResult :=
  let rejectedRes : MatchResult :=
    { status := MatchStatus.rejected
      trades := []
      filled_quantity := 0
      remaining_quantity := 0 }
  if ¬ st.book.is_valid_price new_price then (st, rejectedRes)
  else
    match st.book.findOrder id with
    | none => (st, rejectedRes)
    | some (_, _, o) =>
      if new_qty ≤ o.filled_quantity then (st, rejectedRes)
      else
        let b' := st.book.remove_order o
        let o' :=
          { o with
              price := new_price
              quantity := new_qty
              visible_quantity := new_qty
              timestamp := new_ts }
        let sres := submit_order stp { st with book := b' } o'
        let st2 := sres.1
        let res := sres.2
        if res.status = MatchStatus.resting then
          (st2, { res with status := MatchStatus.modified })
        else (st2, res)

/-! ## Transport messages (`src/transport/message.h`) and the order
gateway (`src/gateway/order_gateway.cpp`).

The gateway's event publishing is embedded as the list of `EventMessage`s
pushed to the event channel, in push order; `publish_event` spin-retries
`try_push` until it succeeds, so with a channel attached the published
list is exactly this list, and with no channel attached nothing is
published. -/

/-- `MessageType` from `src/transport/message.h`. -/
inductive MessageType where
  | add
  | cancel
  | modify
deriving DecidableEq, Repr

/-- `OrderMessage` from `src/transport/message.h`: the command tag plus an
embedded `Order` carrying the command's parameters. -/
structure OrderMessage where
  type : MessageType
  order : Order
deriving DecidableEq, Repr

/-- `EventType` from `src/transport/message.h`. -/
inductive EventType where
  | trade
  | orderAccepted
  | orderCancelled
  | orderRejected
  | orderFilled
  | orderPartialFill
  | orderModified
deriving DecidableEq, Repr

/-- `OrderEventData` from `src/transport/message.h` (48 bytes). -/
structure OrderEventData where
  order_id : Nat
  status : OrderStatus
  filled_quantity : Nat
  remaining_quantity : Nat
  price : Int
  timestamp : Nat
deriving DecidableEq, Repr

/-- The `EventData` union from `src/transport/message.h` (48 bytes). -/
inductive EventData where
  | trade (t : Trade)
  | orderEvent (e : OrderEventData)
deriving DecidableEq, Repr

/-- `EventMessage` from `src/transport/message.h`: the complete 64-byte
record a gateway publishes — an event tag (1 byte, plus 7 bytes padding),
a sequence number (8 bytes), and the 48-byte payload union.  These are all
of its fields. -/
structure EventMessage where
  type : EventType
  sequence_num : Nat
  data : EventData
deriving DecidableEq, Repr

/-- `GatewayRejectReason` from `src/gateway/order_gateway.h`. -/
inductive GatewayRejectReason where
  | none
  | invalidPrice
  | invalidQuantity
  | poolExhausted
  | orderNotFound
deriving DecidableEq, Repr

/-- `GatewayResult` from `src/gateway/order_gateway.h`. -/
structure GatewayResult where
  accepted : Bool
  reject_reason : GatewayRejectReason
  match_status : MatchStatus
  trade_count : Nat
  filled_quantity : Nat
  remaining_quantity : Nat
deriving DecidableEq, Repr

/-- The gateway's state per `src/gateway/order_gateway.h`: borrowed engine
(and pool, part of `EngineState`), the per-gateway instrument id, and the
counters.  (`order_gateway.cpp` never writes `instrument_id` into any
event.) -/
structure GatewayState where
  engine : EngineState
  instrument_id : Nat
  sequence_num : Nat
  orders_processed : Nat
  orders_rejected : Nat
deriving DecidableEq, Repr

/-- `OrderGateway::next_sequence_num`: `++sequence_num_`, returning the
incremented value. -/
def next_sequence_num (seq : Nat) : Nat := add64 seq 1

/-- A zero-initialized `Order` (`Order order_copy{}`): all integer fields
zero, all enums their first enumerator. -/
def Order.zeroed : Order :=
  { order_id := 0
    participant_id := 0
    instrument_id := 0
    side := Side.buy
    type := OrderType.limit
    time_in_force := TimeInForce.gtc
    status := OrderStatus.new
    price := 0
    quantity := 0
    visible_quantity := 0
    iceberg_slice_qty := 0
    filled_quantity := 0
    timestamp := 0 }

/-- `OrderGateway::publish_rejection`: one `OrderRejected` event built from
the inbound command. -/
def publish_rejection (src : Order) (seq : Nat) : List EventMessage × Nat :=
  let seq' := next_sequence_num seq
  ([{ type := EventType.orderRejected
      sequence_num := seq'
      data := EventData.orderEvent
        { order_id := src.order_id
          status := OrderStatus.rejected
          filled_quantity := 0
          remaining_quantity := src.quantity
          price := src.price
          timestamp := src.timestamp } }], seq')

/-- The terminal event tag and status for a match status
(`OrderGateway::decompose_and_publish`'s switch). -/
def terminalTagStatus : MatchStatus → EventType × OrderStatus
  | .filled => (EventType.orderFilled, OrderStatus.filled)
  | .partialFill => (EventType.orderPartialFill, OrderStatus.partialFill)
  | .resting => (EventType.orderAccepted, OrderStatus.accepted)
  | .cancelled => (EventType.orderCancelled, OrderStatus.cancelled)
  | .rejected => (EventType.orderRejected, OrderStatus.rejected)
  | .selfTradePrevented => (EventType.orderCancelled, OrderStatus.cancelled)
  | .modified => (EventType.orderModified, OrderStatus.accepted)

/-- The per-trade publishing step of `decompose_and_publish`: assign the
next sequence number and append one `Trade` event. -/
def tradeEventStep (acc : List EventMessage × Nat) (t : Trade) :
    List EventMessage × Nat :=
  let s' := next_sequence_num acc.2
  (acc.1 ++ [{ type := EventType.trade
               sequence_num := s'
               data := EventData.trade t }], s')

/-- `OrderGateway::decompose_and_publish`: one `Trade` event per trade of
the result, in order, then exactly one terminal status event. -/
def decompose_and_publish (result : MatchResult) (order_copy : Order)
    (seq : Nat) : List EventMessage × Nat :=
  let folded := result.trades.foldl tradeEventStep ([], seq)
  let tradeEvents := folded.1
  let seq1 := folded.2
  let seq2 := next_sequence_num seq1
  let tagst := terminalTagStatus result.status
  let etype := tagst.1
  let estatus := tagst.2
  let term : EventMessage :=
    { type := etype
      sequence_num := seq2
      data := EventData.orderEvent
        { order_id := order_copy.order_id
          status := estatus
          filled_quantity := result.filled_quantity
          remaining_quantity := result.remaining_quantity
          price := order_copy.price
          timestamp := order_copy.timestamp } }
  (tradeEvents ++ [term], seq2)

/-- `OrderGateway::process_order`.  Returns the caller-visible
`GatewayResult`, the new gateway state, and the published events. -/
def process_order (stp : SelfTradePreventionMode) (gw : GatewayState)
    (msg : OrderMessage) : GatewayResult × GatewayState × List EventMessage :=
  let src := msg.order
  let rejResult := fun (reason : GatewayRejectReason) =>
    { accepted := false
      reject_reason := reason
      match_status := MatchStatus.rejected
      trade_count := 0
      filled_quantity := 0
      remaining_quantity := 0 : GatewayResult }
  if src.quantity = 0 then
    let rej := publish_rejection src gw.sequence_num
    let evs := rej.1
    let seq' := rej.2
    (rejResult GatewayRejectReason.invalidQuantity,
     { gw with
         sequence_num := seq'
         orders_rejected := gw.orders_rejected + 1 }, evs)
  else if src.type ≠ OrderType.market ∧ src.price ≤ 0 then
    let rej := publish_rejection src gw.sequence_num
    let evs := rej.1
    let seq' := rej.2
    (rejResult GatewayRejectReason.invalidPrice,
     { gw with
         sequence_num := seq'
         orders_rejected := gw.orders_rejected + 1 }, evs)
  else if gw.engine.pool_free = 0 then
    let rej := publish_rejection src gw.sequence_num
    let evs := rej.1
    let seq' := rej.2
    (rejResult GatewayRejectReason.poolExhausted,
     { gw with
         sequence_num := seq'
         orders_rejected := gw.orders_rejected + 1 }, evs)
  else
    let order :=
      { src with status := OrderStatus.new, filled_quantity := 0 }
    let st0 := { gw.engine with pool_free := gw.engine.pool_free - 1 }
    let order_copy := order
    let sres := submit_order stp st0 order
    let st1 := sres.1
    let match_result := sres.2
    let dp :=
      decompose_and_publish match_result order_copy gw.sequence_num
    let evs := dp.1
    let seq' := dp.2
    ({ accepted := true
       reject_reason := GatewayRejectReason.none
       match_status := match_result.status
       trade_count := match_result.trades.length
       filled_quantity := match_result.filled_quantity
       remaining_quantity := match_result.remaining_quantity },
     { gw with
         engine := st1
         sequence_num := seq'
         orders_processed := gw.orders_processed + 1 }, evs)

/-- `OrderGateway::process_modify`. -/
def process_modify (stp : SelfTradePreventionMode) (gw : GatewayState)
    (msg : OrderMessage) : GatewayResult × GatewayState × List EventMessage :=
  let src := msg.order
  let rejResult := fun (reason : GatewayRejectReason) =>
    { accepted := false
      reject_reason := reason
      match_status := MatchStatus.rejected
      trade_count := 0
      filled_quantity := 0
      remaining_quantity := 0 : GatewayResult }
  if src.quantity = 0 then
    let rej := publish_rejection src gw.sequence_num
    let evs := rej.1
    let seq' := rej.2
    (rejResult GatewayRejectReason.invalidQuantity,
     { gw with
         sequence_num := seq'
         orders_rejected := gw.orders_rejected + 1 }, evs)
  else if src.price ≤ 0 then
    let rej := publish_rejection src gw.sequence_num
    let evs := rej.1
    let seq' := rej.2
    (rejResult GatewayRejectReason.invalidPrice,
     { gw with
         sequence_num := seq'
         orders_rejected := gw.orders_rejected + 1 }, evs)
  else
    let sres :=
      modify_order stp gw.engine src.order_id src.price src.quantity
        src.timestamp
    let st1 := sres.1
    let match_result := sres.2
    if match_result.status = MatchStatus.rejected then
      let rej := publish_rejection src gw.sequence_num
      let evs := rej.1
      let seq' := rej.2
      (rejResult GatewayRejectReason.orderNotFound,
       { gw with
           engine := st1
           sequence_num := seq'
           orders_rejected := gw.orders_rejected + 1 }, evs)
    else
      let order_copy :=
        { Order.zeroed with
            order_id := src.order_id
            price := src.price
            timestamp := src.timestamp }
      let dp :=
        decompose_and_publish match_result order_copy gw.sequence_num
      let evs := dp.1
      let seq' := dp.2
      ({ accepted := true
         reject_reason := GatewayRejectReason.none
         match_status := match_result.status
         trade_count := match_result.trades.length
         filled_quantity := match_result.filled_quantity
         remaining_quantity := match_result.remaining_quantity },
       { gw with
           engine := st1
           sequence_num := seq'
           orders_processed := gw.orders_processed + 1 }, evs)

/-- `OrderGateway::process_cancel`. -/
def process_cancel (gw : GatewayState) (id : Nat) :
    Bool × GatewayState × List EventMessage :=
  let cr := engine_cancel_order gw.engine id
  let st' := cr.1
  let ok := cr.2
  if ok then
    let seq' := next_sequence_num gw.sequence_num
    let ev : EventMessage :=
      { type := EventType.orderCancelled
        sequence_num := seq'
        data := EventData.orderEvent
          { order_id := id
            status := OrderStatus.cancelled
            filled_quantity := 0
            remaining_quantity := 0
            price := 0
            timestamp := 0 } }
    (true, { gw with engine := st', sequence_num := seq' }, [ev])
  else (false, { gw with engine := st' }, [])

/-! ## SPSC ring buffer (`src/transport/spsc_ring_buffer.h`), modelled
sequentially.

`Capacity` is a compile-time power of two, embedded as `2 ^ capExp`, so
the bitmask slot computation `idx & kMask` with `kMask = Capacity - 1` is
embedded as `idx % 2 ^ capExp`.  The `head_` and `tail_` indices are
`size_t` (64-bit), stored here as naturals below `2 ^ 64` with every
update reduced `% 2 ^ 64`.  The uninitialized `buffer_` array is a
function from slot index to element. -/

/-- The ring's state: producer index, consumer index, slot contents. -/
structure Ring (α : Type) where
  head : Nat
  tail : Nat
  buf : Nat → α

/-- `SPSCRingBuffer::try_push`: full iff `head - tail >= Capacity` in
`size_t` arithmetic; otherwise copy into slot `head & kMask` and store
`head + 1`. -/
def try_push (capExp : Nat) (r : Ring α) (v : α) : Bool × Ring α :=
  if sub64 r.head r.tail ≥ 2 ^ capExp then (false, r)
  else
    (true,
     { r with
         buf := fun j => if j = r.head % 2 ^ capExp then v else r.buf j
         head := (r.head + 1) % U64 })

/-- `SPSCRingBuffer::try_pop`: empty iff `tail >= head` (a raw 64-bit
comparison of the stored indices); otherwise copy slot `tail & kMask` out
and store `tail + 1`. -/
def try_pop (capExp : Nat) (r : Ring α) : Option α × Ring α :=
  if r.tail ≥ r.head then (none, r)
  else
    (some (r.buf (r.tail % 2 ^ capExp)),
     { r with tail := (r.tail + 1) % U64 })

/-- An operation of the sequential SPSC model. -/
inductive RingOp (α : Type) where
  | push (v : α)
  | pop

/-- The outcome of one operation. -/
inductive RingOut (α : Type) where
  | pushed (ok : Bool)
  | popped (x : Option α)
deriving DecidableEq

/-- Run a sequence of operations on the ring, collecting each call's
return value. -/
def runRing (capExp : Nat) : List (RingOp α) → Ring α →
    List (RingOut α) × Ring α
  | [], r => ([], r)
  | RingOp.push v :: ops, r =>
    let pr := try_push capExp r v
    let rest := runRing capExp ops pr.2
    (RingOut.pushed pr.1 :: rest.1, rest.2)
  | RingOp.pop :: ops, r =>
    let pr := try_pop capExp r
    let rest := runRing capExp ops pr.2
    (RingOut.popped pr.1 :: rest.1, rest.2)

/-- The specification queue: a FIFO list of pending elements, bounded by
the capacity; every pushed value is popped exactly once, in push order. -/
def specPush (cap : Nat) (q : List α) (v : α) : Bool × List α :=
  if q.length = cap then (false, q) else (true, q ++ [v])

/-- Specification pop: the front pending element, if any. -/
def specPop (q : List α) : Option α × List α :=
  match q with
  | [] => (none, [])
  | x :: rest => (some x, rest)

/-- Run a sequence of operations on the specification queue. -/
def runSpec (cap : Nat) : List (RingOp α) → List α →
    List (RingOut α) × List α
  | [], q => ([], q)
  | RingOp.push v :: ops, q =>
    let pr := specPush cap q v
    let rest := runSpec cap ops pr.2
    (RingOut.pushed pr.1 :: rest.1, rest.2)
  | RingOp.pop :: ops, q =>
    let pr := specPop q
    let rest := runSpec cap ops pr.2
    (RingOut.popped pr.1 :: rest.1, rest.2)

/-- Number of push operations in a sequence. -/
def countPush : List (RingOp α) → Nat
  | [] => 0
  | RingOp.push _ :: ops => countPush ops + 1
  | RingOp.pop :: ops => countPush ops

/-- The pending elements of a ring state, reconstructed from the slots
between `tail` and `head`. -/
def ringPending (capExp : Nat) (r : Ring α) : List α :=
  (List.range (r.head - r.tail)).map
    (fun j => r.buf ((r.tail + j) % 2 ^ capExp))

/-! ## Derived notions used in the theorems -/

/-- All orders resting on one side of the book (the concatenation of the
side's level FIFOs). -/
def OrderBook.ordersOnSide (b : OrderBook) (s : Side) : List Order :=
  ((b.levelsOf s).map PriceLevel.orders).flatten

/-- Well-formedness of a book state, as established by the constructor and
preserved by the book's operations: positive tick, level arrays of the
constructed length, and every resting order stored at the level its price
and side index to, carrying that level's price and a valid price.
All quantifiers are bounded, so the predicate is decidable. -/
def BookWF (b : OrderBook) : Prop :=
  0 < b.tick_size ∧
  b.num_levels = ((b.max_price - b.min_price) / b.tick_size).toNat + 1 ∧
  b.bid_levels.length = b.num_levels ∧
  b.ask_levels.length = b.num_levels ∧
  ∀ s : Side, ∀ i < b.num_levels, ∀ o ∈ (b.levelAt s i).orders,
    o.price = (b.levelAt s i).price ∧ b.is_valid_price o.price = true ∧
    b.price_to_index o.price = i ∧ o.side = s

/-- No two resting orders share an order id (the order index enforces this
at insertion). -/
def BookIdsNodup (b : OrderBook) : Prop :=
  ((b.ordersOnSide Side.buy ++ b.ordersOnSide Side.sell).map
    Order.order_id).Nodup

/-- Spec §8, invariant 4: `best_bid_idx` is the maximum index of a
non-empty bid level, or the sentinel when all bid levels are empty. -/
def BidBestOk (b : OrderBook) : Prop :=
  match b.best_bid_idx with
  | none => ∀ i < b.num_levels, (b.levelAt Side.buy i).orders = []
  | some k =>
    k < b.num_levels ∧ (b.levelAt Side.buy k).orders ≠ [] ∧
    ∀ i < b.num_levels, k < i → (b.levelAt Side.buy i).orders = []

/-- Spec §8, invariant 5: `best_ask_idx` is the minimum index of a
non-empty ask level, or the sentinel when all ask levels are empty. -/
def AskBestOk (b : OrderBook) : Prop :=
  match b.best_ask_idx with
  | none => ∀ i < b.num_levels, (b.levelAt Side.sell i).orders = []
  | some k =>
    k < b.num_levels ∧ (b.levelAt Side.sell k).orders ≠ [] ∧
    ∀ i < b.num_levels, i < k → (b.levelAt Side.sell i).orders = []

/-- The cached-best-index invariant (spec §8, invariants 4 and 5). -/
def BestIdxInv (b : OrderBook) : Prop :=
  BidBestOk b ∧ AskBestOk b

instance instDecBookWF (b : OrderBook) : Decidable (BookWF b) := by
  unfold BookWF; infer_instance

instance instDecBookIdsNodup (b : OrderBook) : Decidable (BookIdsNodup b) := by
  unfold BookIdsNodup; infer_instance

instance instDecBidBestOk (b : OrderBook) : Decidable (BidBestOk b) := by
  cases hb : b.best_bid_idx <;> simp only [BidBestOk, hb] <;> infer_instance

instance instDecAskBestOk (b : OrderBook) : Decidable (AskBestOk b) := by
  cases ha : b.best_ask_idx <;> simp only [AskBestOk, ha] <;> infer_instance

instance instDecBestIdxInv (b : OrderBook) : Decidable (BestIdxInv b) := by
  unfold BestIdxInv
  infer_instance

/-- An externally triggered book mutation: `add_order` (gateway add path),
`cancel_order` (cancel path), or `remove_order` on a resting order looked
up by id (the matching engine calls `remove_order` only on orders it holds
from the book, i.e. on resting orders). -/
inductive BookOp where
  | add (o : Order)
  | cancel (id : Nat)
  | removeById (id : Nat)

/-- Apply one book operation. -/
def applyOp (b : OrderBook) : BookOp → OrderBook
  | .add o => (b.add_order o).2
  | .cancel id => (b.cancel_order id).2
  | .removeById id =>
    match b.findOrder id with
    | none => b
    | some (_, _, o) => b.remove_order o

/-- Apply a sequence of book operations. -/
def applyOps (b : OrderBook) : List BookOp → OrderBook
  | [] => b
  | op :: ops => applyOps (applyOp b op) ops

/-- The counterparty (resting-order) id recorded in a trade of an
aggressive order: the sell id for an aggressive buy and vice versa. -/
def counterpartyId (o : Order) (t : Trade) : Nat :=
  if o.side = Side.buy then t.sell_order_id else t.buy_order_id

/-- The opposite-side best level fetched by the match loop for an
aggressive order of the given side. -/
def bestOppositeLevel (b : OrderBook) : Side → Option PriceLevel
  | .buy => b.best_ask_level
  | .sell => b.best_bid_level

/-- Sum of `total_quantity` over `cnt` consecutive level indices starting
at `lo` (ascending), reduced `% 2 ^ 64` like the walk's `uint64_t`
accumulation. -/
def sumTq (ls : List PriceLevel) (lo cnt : Nat) : Nat :=
  (((List.range' lo cnt).map
    (fun i => (ls.getD i PriceLevel.zero).total_quantity)).sum) % U64

/-- The clamped limit index of the ask walk of `available_quantity`. -/
def askLimitIdx (b : OrderBook) (limit : Int) : Nat :=
  b.price_to_index (if limit > b.max_price then b.max_price else limit)

/-- The clamped limit index of the bid walk of `available_quantity`. -/
def bidLimitIdx (b : OrderBook) (limit : Int) : Nat :=
  b.price_to_index (if limit < b.min_price then b.min_price else limit)

/-! ## Concrete states for witnesses and counterexamples

A small instrument: prices 1..10, tick 1 (ten levels), pool of 100. -/

/-- Order-record constructor for concrete states (fields in source order,
links implicit; visible quantity defaults to the full quantity as the
gateway's add command carries it for non-iceberg orders). -/
def mkOrder (id part : Nat) (s : Side) (t : OrderType) (p : Int) (q : Nat)
    (vis : Nat := q) (slice : Nat := 0) (ts : Nat := 0) : Order :=
  { order_id := id
    participant_id := part
    instrument_id := 0
    side := s
    type := t
    time_in_force := TimeInForce.gtc
    status := OrderStatus.new
    price := p
    quantity := q
    visible_quantity := vis
    iceberg_slice_qty := slice
    filled_quantity := 0
    timestamp := ts }

/-- Fresh engine over the ten-level book. -/
def engine0 : EngineState :=
  { book := OrderBook.init 1 10 1, pool_free := 100, trade_id_counter := 0 }

/-- Rest an order through a normal submission (discarding the result). -/
def restOrder (st : EngineState) (o : Order) : EngineState :=
  (submit_order SelfTradePreventionMode.none st o).1

/-- C1 failing input, pre-state book: resting sells id 1 (participant 7,
qty 50) and id 2 (participant 8, qty 50), both at price 5, rested through
`add_order` (the path a non-crossing limit submission takes). -/
def c1PreBook : OrderBook :=
  (((OrderBook.init 1 10 1).add_order
      (mkOrder 1 7 Side.sell OrderType.limit 5 50)).2.add_order
    (mkOrder 2 8 Side.sell OrderType.limit 5 50)).2

/-- C1 failing input, pre-state. -/
def c1Pre : EngineState :=
  { book := c1PreBook, pool_free := 98, trade_id_counter := 0 }

/-- C1 failing input, the command: a FOK buy for 100 at price 5 from
participant 7, submitted to an engine in `CancelOldest` self-trade
prevention mode. -/
def c1Fok : Order := mkOrder 3 7 Side.buy OrderType.fok 5 100

/-- C1 failing input, the run. -/
def c1Run : EngineState × MatchResult :=
  submit_order SelfTradePreventionMode.cancelOldest c1Pre c1Fok

/-- C4 counterexample book: resting bids of 40 at price 3 and 60 at
price 5 (best bid). -/
def c4Book : OrderBook :=
  ((OrderBook.init 1 10 1).add_order
      (mkOrder 1 1 Side.buy OrderType.limit 3 40)).2.add_order
    (mkOrder 2 2 Side.buy OrderType.limit 5 60) |>.2

/-- C2 witness book state: resting sells of 50 at price 5 (timestamp 1)
and 60 at price 6 (timestamp 2). -/
def c2St : EngineState :=
  restOrder
    (restOrder engine0 (mkOrder 1 1 Side.sell OrderType.limit 5 50 50 0 1))
    (mkOrder 2 2 Side.sell OrderType.limit 6 60 60 0 2)

/-- C2/C10 witness aggressive order: a buy for 80 at price 6, timestamp 99. -/
def c2Buy : Order := mkOrder 9 3 Side.buy OrderType.limit 6 80 80 0 99

/-- The first trade generated by submitting `c2Buy` to `c2St`: 50 filled
against resting order 1 at its price 5, carrying the aggressive
timestamp 99. -/
def c10Trade : Trade :=
  { trade_id := 1
    buy_order_id := 9
    sell_order_id := 1
    price := 5
    quantity := 50
    timestamp := 99 }

/-- C5 witness book state: resting buys id 1 (qty 100) then id 2 (qty 80),
both at price 5, id 1 holding time priority. -/
def c5St : EngineState :=
  restOrder (restOrder engine0 (mkOrder 1 1 Side.buy OrderType.limit 5 100))
    (mkOrder 2 2 Side.buy OrderType.limit 5 80)

/-- C9 witness gateway over the fresh engine, instrument 7. -/
def gw0 : GatewayState :=
  { engine := engine0
    instrument_id := 7
    sequence_num := 0
    orders_processed := 0
    orders_rejected := 0 }

/-- C9 witness message: a limit buy at price 20 — positive (so gateway
validation passes) but above `max_price` (so the engine rejects it). -/
def c9Msg : OrderMessage :=
  { type := MessageType.add
    order := mkOrder 4 1 Side.buy OrderType.limit 20 10 }

/-- C8: the all-unit initial ring of capacity `2 ^ 1`. -/
def ringU0 : Ring Unit := { head := 0, tail := 0, buf := fun _ => () }

/-- C8: one push-then-pop round on the unit ring. -/
def pushPopRound (r : Ring Unit) : Ring Unit :=
  (try_pop 1 (try_push 1 r ()).2).2

/-- C8: `k` push-then-pop rounds. -/
def roundIter : Nat → Ring Unit → Ring Unit
  | 0, r => r
  | k + 1, r => pushPopRound (roundIter k r)

/-- C8 counterexample operation sequence: `2 ^ 64 − 1` push-then-pop
rounds, then one final push and one final pop. -/
def c8Ops : List (RingOp Unit) :=
  (List.replicate (U64 - 1) [RingOp.push (), RingOp.pop]).flatten ++
    [RingOp.push (), RingOp.pop]

/-- C8 witness operation sequence. -/
def c8WitnessOps : List (RingOp Nat) :=
  [RingOp.push 11, RingOp.push 22, RingOp.push 33, RingOp.pop,
   RingOp.push 44, RingOp.pop, RingOp.pop, RingOp.pop, RingOp.pop]

/-- The publishing shape asserted by the spec for one submission: the
published events are some trade-tagged events followed by exactly one
terminal (non-trade) status event, with nothing after it. -/
def EventsShape (evs : List EventMessage) (tradeCount : Nat) : Prop :=
  ∃ ts term, evs = ts ++ [term] ∧ ts.length = tradeCount ∧
    (∀ e ∈ ts, e.type = EventType.trade) ∧
    term.type ≠ EventType.trade

/-! # Theorems -/

/-! ## Order-book structural lemmas and the best-index invariant (C3) -/
theorem levelsOf_setLevel_same (b : OrderBook) (s : Side) (i : Nat)
    (l : PriceLevel) :
    (b.setLevel s i l).levelsOf s = (b.levelsOf s).set i l := by
  cases s <;> rfl

theorem levelsOf_setLevel_other (b : OrderBook) (s s' : Side) (i : Nat)
    (l : PriceLevel) (h : s ≠ s') :
    (b.setLevel s i l).levelsOf s' = b.levelsOf s' := by
  cases s <;> cases s' <;> first | rfl | exact absurd rfl h

theorem levelAt_setLevel_self (b : OrderBook) (s : Side) (i : Nat)
    (l : PriceLevel) (h : i < (b.levelsOf s).length) :
    (b.setLevel s i l).levelAt s i = l := by
  unfold OrderBook.levelAt
  rw [levelsOf_setLevel_same]
  simp [List.getD_eq_getElem?_getD, List.getElem?_set_self, h]

theorem levelAt_setLevel_ne (b : OrderBook) (s : Side) (i j : Nat)
    (l : PriceLevel) (h : i ≠ j) :
    (b.setLevel s i l).levelAt s j = b.levelAt s j := by
  unfold OrderBook.levelAt
  rw [levelsOf_setLevel_same]
  simp [List.getD_eq_getElem?_getD, List.getElem?_set_ne, h]

theorem levelAt_setLevel_other (b : OrderBook) (s s' : Side) (i j : Nat)
    (l : PriceLevel) (h : s ≠ s') :
    (b.setLevel s i l).levelAt s' j = b.levelAt s' j := by
  unfold OrderBook.levelAt
  rw [levelsOf_setLevel_other _ _ _ _ _ h]

theorem setLevel_fields (b : OrderBook) (s : Side) (i : Nat)
    (l : PriceLevel) :
    (b.setLevel s i l).min_price = b.min_price ∧
    (b.setLevel s i l).max_price = b.max_price ∧
    (b.setLevel s i l).tick_size = b.tick_size ∧
    (b.setLevel s i l).num_levels = b.num_levels ∧
    (b.setLevel s i l).best_bid_idx = b.best_bid_idx ∧
    (b.setLevel s i l).best_ask_idx = b.best_ask_idx := by
  cases s <;> exact ⟨rfl, rfl, rfl, rfl, rfl, rfl⟩

theorem setLevel_length (b : OrderBook) (s s' : Side) (i : Nat)
    (l : PriceLevel) :
    ((b.setLevel s i l).levelsOf s').length = (b.levelsOf s').length := by
  cases s <;> cases s' <;> simp [OrderBook.setLevel, OrderBook.levelsOf]

theorem levelAt_mem_or_zero (b : OrderBook) (s : Side) (i : Nat) :
    b.levelAt s i ∈ b.levelsOf s ∨ b.levelAt s i = PriceLevel.zero := by
  unfold OrderBook.levelAt
  by_cases h : i < (b.levelsOf s).length
  · left
    rw [List.getD_eq_getElem?_getD]
    simp only [List.getElem?_eq_getElem h, Option.getD_some]
    exact List.getElem_mem h
  · right
    rw [List.getD_eq_getElem?_getD]
    simp [List.getElem?_eq_none (Nat.le_of_not_lt h)]

theorem findInLevels_go_spec (id : Nat) :
    ∀ (ls : List PriceLevel) (j i : Nat) (o : Order),
      findInLevels.go id ls j = some (i, o) →
      j ≤ i ∧ o ∈ (ls.getD (i - j) PriceLevel.zero).orders ∧
        o.order_id = id := by
  intro ls
  induction ls with
  | nil => intro j i o h; exact absurd h (by simp [findInLevels.go])
  | cons l rest ih =>
    intro j i o h
    rw [findInLevels.go] at h
    rcases hf : l.orders.find? (fun o => o.order_id = id) with _ | o'
    · rw [hf] at h
      rcases ih (j + 1) i o h with ⟨hj, hmem, hid⟩
      refine ⟨by omega, ?_, hid⟩
      have : i - j = (i - (j + 1)) + 1 := by omega
      rw [this]
      simpa using hmem
    · rw [hf] at h
      injection h with h'
      have h1 : j = i := congrArg Prod.fst h'
      have h2 : o' = o := congrArg Prod.snd h'
      refine ⟨by omega, ?_, ?_⟩
      · have : i - j = 0 := by omega
        rw [this]
        simp only [List.getD_cons_zero]
        rw [← h2]
        exact List.mem_of_find?_eq_some hf
      · rw [← h2]
        simpa using List.find?_some hf

theorem findOrder_spec (b : OrderBook) (id : Nat) (s : Side) (i : Nat)
    (o : Order) (h : b.findOrder id = some (s, i, o)) :
    o ∈ (b.levelAt s i).orders ∧ o.order_id = id := by
  unfold OrderBook.findOrder at h
  rcases hb : findInLevels b.bid_levels id with _ | p
  · rw [hb] at h
    rcases ha : findInLevels b.ask_levels id with _ | p
    · rw [ha] at h; exact absurd h (by simp)
    · rw [ha] at h
      obtain ⟨i', o'⟩ := p
      injection h with h'
      have hs : s = Side.sell := (congrArg Prod.fst h').symm
      have hio : (i', o') = (i, o) := by
        have := congrArg Prod.snd h'
        simpa using this
      have hi : i' = i := congrArg Prod.fst hio
      have ho : o' = o := congrArg Prod.snd hio
      have := findInLevels_go_spec id b.ask_levels 0 i' o' ha
      rw [hi, ho] at this
      rcases this with ⟨_, hmem, hid⟩
      subst hs
      simp only [Nat.sub_zero] at hmem
      exact ⟨hmem, hid⟩
  · rw [hb] at h
    obtain ⟨i', o'⟩ := p
    injection h with h'
    have hs : s = Side.buy := (congrArg Prod.fst h').symm
    have hio : (i', o') = (i, o) := by
      have := congrArg Prod.snd h'
      simpa using this
    have hi : i' = i := congrArg Prod.fst hio
    have ho : o' = o := congrArg Prod.snd hio
    have := findInLevels_go_spec id b.bid_levels 0 i' o' hb
    rw [hi, ho] at this
    rcases this with ⟨_, hmem, hid⟩
    subst hs
    simp only [Nat.sub_zero] at hmem
    exact ⟨hmem, hid⟩

theorem level_empty_iff (l : PriceLevel) : l.empty = true ↔ l.orders = [] := by
  simp [PriceLevel.empty, List.isEmpty_iff]

theorem scanDown_spec (ls : List PriceLevel) :
    ∀ j : Nat,
      (∀ r, scanDown ls j = some r →
        r ≤ j ∧ (ls.getD r PriceLevel.zero).orders ≠ [] ∧
        ∀ i, r < i → i ≤ j → (ls.getD i PriceLevel.zero).orders = []) ∧
      (scanDown ls j = none →
        ∀ i, i ≤ j → (ls.getD i PriceLevel.zero).orders = []) := by
  intro j
  induction j with
  | zero =>
    constructor
    · intro r h
      rw [scanDown] at h
      split at h
      case isTrue hc =>
        injection h with h'
        subst h'
        exact ⟨Nat.le_refl 0,
          fun he => hc ((level_empty_iff _).mpr he),
          fun i h1 h2 => absurd (Nat.lt_of_lt_of_le h1 h2) (Nat.lt_irrefl _)⟩
      case isFalse hc => exact absurd h (by simp)
    · intro h i hi
      rw [scanDown] at h
      split at h
      case isTrue hc => exact absurd h (by simp)
      case isFalse hc =>
        have hi0 : i = 0 := Nat.le_zero.mp hi
        subst hi0
        exact (level_empty_iff _).mp (not_not.mp hc)
  | succ j ih =>
    constructor
    · intro r h
      rw [scanDown] at h
      split at h
      case isTrue hc =>
        injection h with h'
        subst h'
        refine ⟨Nat.le_refl _, fun he => hc ((level_empty_iff _).mpr he), ?_⟩
        intro i h1 h2
        omega
      case isFalse hc =>
        rcases (ih.1 r h) with ⟨hr, hne, hemp⟩
        refine ⟨by omega, hne, ?_⟩
        intro i h1 h2
        by_cases hij : i ≤ j
        · exact hemp i h1 hij
        · have hieq : i = j + 1 := by omega
          subst hieq
          exact (level_empty_iff _).mp (not_not.mp hc)
    · intro h i hi
      rw [scanDown] at h
      split at h
      case isTrue hc => exact absurd h (by simp)
      case isFalse hc =>
        by_cases hij : i ≤ j
        · exact ih.2 h i hij
        · have hieq : i = j + 1 := by omega
          subst hieq
          exact (level_empty_iff _).mp (not_not.mp hc)

theorem scanUpAux_spec (ls : List PriceLevel) :
    ∀ fuel i : Nat,
      (∀ r, scanUpAux ls fuel i = some r →
        i ≤ r ∧ r < i + fuel ∧ (ls.getD r PriceLevel.zero).orders ≠ [] ∧
        ∀ i', i ≤ i' → i' < r → (ls.getD i' PriceLevel.zero).orders = []) ∧
      (scanUpAux ls fuel i = none →
        ∀ i', i ≤ i' → i' < i + fuel →
          (ls.getD i' PriceLevel.zero).orders = []) := by
  intro fuel
  induction fuel with
  | zero =>
    intro i
    constructor
    · intro r h
      exact absurd h (by simp [scanUpAux])
    · intro h i' h1 h2
      omega
  | succ f ih =>
    intro i
    constructor
    · intro r h
      rw [scanUpAux] at h
      split at h
      case isTrue hc =>
        injection h with h'
        subst h'
        refine ⟨Nat.le_refl _, by omega,
          fun he => hc ((level_empty_iff _).mpr he), ?_⟩
        intro i' h1 h2
        omega
      case isFalse hc =>
        rcases (ih (i + 1)).1 r h with ⟨hr, hlt, hne, hemp⟩
        refine ⟨by omega, by omega, hne, ?_⟩
        intro i' h1 h2
        by_cases hii : i' = i
        · subst hii
          exact (level_empty_iff _).mp (not_not.mp hc)
        · exact hemp i' (by omega) h2
    · intro h i' h1 h2
      rw [scanUpAux] at h
      split at h
      case isTrue hc => exact absurd h (by simp)
      case isFalse hc =>
        by_cases hii : i' = i
        · subst hii
          exact (level_empty_iff _).mp (not_not.mp hc)
        · exact (ih (i + 1)).2 h i' (by omega) (by omega)

theorem is_valid_price_iff (b : OrderBook) (p : Int) :
    b.is_valid_price p = true ↔
      b.min_price ≤ p ∧ p ≤ b.max_price ∧
        (p - b.min_price) % b.tick_size = 0 := by
  simp [OrderBook.is_valid_price, and_assoc]

theorem valid_price_idx_lt (b : OrderBook) (htick : 0 < b.tick_size)
    (hnum : b.num_levels = ((b.max_price - b.min_price) / b.tick_size).toNat + 1)
    (p : Int) (hv : b.is_valid_price p = true) :
    b.price_to_index p < b.num_levels := by
  rcases (is_valid_price_iff b p).mp hv with ⟨h1, h2, _⟩
  unfold OrderBook.price_to_index
  rw [hnum]
  have hle : (p - b.min_price) / b.tick_size ≤
      (b.max_price - b.min_price) / b.tick_size :=
    Int.ediv_le_ediv htick (by omega)
  have := Int.toNat_le_toNat hle
  omega

theorem valid_price_inj (b : OrderBook) (htick : 0 < b.tick_size)
    (p q : Int) (hp : b.is_valid_price p = true)
    (hq : b.is_valid_price q = true)
    (heq : b.price_to_index p = b.price_to_index q) : p = q := by
  rcases (is_valid_price_iff b p).mp hp with ⟨hp1, _, hp3⟩
  rcases (is_valid_price_iff b q).mp hq with ⟨hq1, _, hq3⟩
  unfold OrderBook.price_to_index at heq
  have hpd : 0 ≤ (p - b.min_price) / b.tick_size :=
    Int.ediv_nonneg (by omega) (by omega)
  have hqd : 0 ≤ (q - b.min_price) / b.tick_size :=
    Int.ediv_nonneg (by omega) (by omega)
  have hdiv : (p - b.min_price) / b.tick_size =
      (q - b.min_price) / b.tick_size := by
    have := congrArg (fun n : Nat => (n : Int)) heq
    simpa [Int.toNat_of_nonneg hpd, Int.toNat_of_nonneg hqd] using this
  have hpe := Int.ediv_add_emod (p - b.min_price) b.tick_size
  have hqe := Int.ediv_add_emod (q - b.min_price) b.tick_size
  rw [hp3] at hpe
  rw [hq3] at hqe
  have : p - b.min_price = q - b.min_price := by
    rw [← hpe, ← hqe, hdiv]
  omega

theorem setLevel_min_price (b : OrderBook) (s : Side) (i : Nat)
    (l : PriceLevel) : (b.setLevel s i l).min_price = b.min_price := by
  cases s <;> rfl

theorem setLevel_tick_size (b : OrderBook) (s : Side) (i : Nat)
    (l : PriceLevel) : (b.setLevel s i l).tick_size = b.tick_size := by
  cases s <;> rfl

theorem setLevel_num_levels (b : OrderBook) (s : Side) (i : Nat)
    (l : PriceLevel) : (b.setLevel s i l).num_levels = b.num_levels := by
  cases s <;> rfl

theorem setLevel_valid_price (b : OrderBook) (s : Side) (i : Nat)
    (l : PriceLevel) (p : Int) :
    (b.setLevel s i l).is_valid_price p = b.is_valid_price p := by
  cases s <;> rfl

theorem setLevel_price_to_index (b : OrderBook) (s : Side) (i : Nat)
    (l : PriceLevel) (p : Int) :
    (b.setLevel s i l).price_to_index p = b.price_to_index p := by
  cases s <;> rfl

theorem setLevel_of_length_le (b : OrderBook) (s : Side) (i : Nat)
    (l' : PriceLevel) (h : (b.levelsOf s).length ≤ i) :
    b.setLevel s i l' = b := by
  cases s
  all_goals simp only [OrderBook.levelsOf] at h
  · show { b with bid_levels := b.bid_levels.set i l' } = b
    rw [List.set_eq_of_length_le h]
  · show { b with ask_levels := b.ask_levels.set i l' } = b
    rw [List.set_eq_of_length_le h]

theorem eraseById_subset (l : List Order) (id : Nat) :
    ∀ o ∈ eraseById l id, o ∈ l := by
  induction l with
  | nil => intro o h; exact absurd h (by simp [eraseById])
  | cons x rest ih =>
    intro o h
    rw [eraseById] at h
    split at h
    · exact List.mem_cons_of_mem x h
    · rcases List.mem_cons.mp h with h' | h'
      · exact h' ▸ List.mem_cons_self x rest
      · exact List.mem_cons_of_mem x (ih o h')

theorem lt_length_of_orders_ne_nil (b : OrderBook) (s : Side) (i : Nat)
    (h : (b.levelAt s i).orders ≠ []) : i < (b.levelsOf s).length := by
  by_contra hc
  apply h
  unfold OrderBook.levelAt
  rw [List.getD_eq_default _ _ (Nat.le_of_not_lt hc)]
  rfl

theorem bookWF_of_fields (b b' : OrderBook)
    (h1 : b'.min_price = b.min_price) (h2 : b'.max_price = b.max_price)
    (h3 : b'.tick_size = b.tick_size) (h4 : b'.num_levels = b.num_levels)
    (h5 : b'.bid_levels = b.bid_levels) (h6 : b'.ask_levels = b.ask_levels)
    (h : BookWF b) : BookWF b' := by
  obtain ⟨ht, hn, hbl, hal, hcoh⟩ := h
  have hL : ∀ s i, b'.levelAt s i = b.levelAt s i := by
    intro s i
    unfold OrderBook.levelAt OrderBook.levelsOf
    cases s
    · rw [h5]
    · rw [h6]
  have hvp : ∀ p, b'.is_valid_price p = b.is_valid_price p := by
    intro p
    unfold OrderBook.is_valid_price
    rw [h1, h2, h3]
  have hpi : ∀ p, b'.price_to_index p = b.price_to_index p := by
    intro p
    unfold OrderBook.price_to_index
    rw [h1, h3]
  refine ⟨h3 ▸ ht, ?_, ?_, ?_, ?_⟩
  · rw [h4, h3, h2, h1]
    exact hn
  · rw [h5, h4]
    exact hbl
  · rw [h6, h4]
    exact hal
  · intro s i hi o hmem
    rw [h4] at hi
    rw [hL] at hmem ⊢
    rw [hvp, hpi]
    exact hcoh s i hi o hmem

theorem bookWF_setLevel (b : OrderBook) (s : Side) (i : Nat)
    (l' : PriceLevel) (h : BookWF b)
    (hsub : ∀ o ∈ l'.orders,
      o.price = l'.price ∧ b.is_valid_price o.price = true ∧
      b.price_to_index o.price = i ∧ o.side = s) :
    BookWF (b.setLevel s i l') := by
  obtain ⟨ht, hn, hbl, hal, hcoh⟩ := h
  refine ⟨?_, ?_, ?_, ?_, ?_⟩
  · rw [setLevel_tick_size]
    exact ht
  · rw [setLevel_num_levels, setLevel_tick_size, setLevel_min_price]
    cases s <;> exact hn
  · cases s <;> simp [OrderBook.setLevel, hbl]
  · cases s <;> simp [OrderBook.setLevel, hal]
  · intro s' i' hi' o hmem
    rw [setLevel_num_levels] at hi'
    rw [setLevel_valid_price, setLevel_price_to_index]
    by_cases hs : s = s'
    · subst hs
      by_cases hii : i = i'
      · subst hii
        by_cases hlen : i < (b.levelsOf s).length
        · rw [levelAt_setLevel_self _ _ _ _ hlen] at hmem
          rw [levelAt_setLevel_self _ _ _ _ hlen]
          exact hsub o hmem
        · rw [setLevel_of_length_le _ _ _ _ (Nat.le_of_not_lt hlen)]
            at hmem ⊢
          exact hcoh s i hi' o hmem
      · rw [levelAt_setLevel_ne _ _ _ _ _ hii] at hmem
        rw [levelAt_setLevel_ne _ _ _ _ _ hii]
        exact hcoh s i' hi' o hmem
    · rw [levelAt_setLevel_other _ _ _ _ _ _ hs] at hmem
      rw [levelAt_setLevel_other _ _ _ _ _ _ hs]
      exact hcoh s' i' hi' o hmem

theorem bookWF_update_best_bid (b : OrderBook) (idx : Nat)
    (h : BookWF b) : BookWF (b.update_best_bid_after_remove idx) := by
  cases idx
  · exact bookWF_of_fields b _ rfl rfl rfl rfl rfl rfl h
  · exact bookWF_of_fields b _ rfl rfl rfl rfl rfl rfl h

theorem bookWF_update_best_ask (b : OrderBook) (idx : Nat)
    (h : BookWF b) : BookWF (b.update_best_ask_after_remove idx) :=
  bookWF_of_fields b _ rfl rfl rfl rfl rfl rfl h

theorem bookWF_remove_order (b : OrderBook) (o : Order) (h : BookWF b) :
    BookWF (b.remove_order o) := by
  have base : BookWF (b.setLevel o.side (b.price_to_index o.price)
      (PriceLevel.remove_order
        (b.levelAt o.side (b.price_to_index o.price)) o)) := by
    apply bookWF_setLevel _ _ _ _ h
    intro o' hmem
    have hmem' : o' ∈ (b.levelAt o.side (b.price_to_index o.price)).orders :=
      eraseById_subset _ _ o' hmem
    have hlt : b.price_to_index o.price < (b.levelsOf o.side).length :=
      lt_length_of_orders_ne_nil _ _ _ (by
        intro hnil
        rw [hnil] at hmem'
        exact absurd hmem' (List.not_mem_nil o'))
    have hnum : b.price_to_index o.price < b.num_levels := by
      obtain ⟨_, _, hbl, hal, _⟩ := h
      cases ho : o.side
      · rw [ho] at hlt
        simp only [OrderBook.levelsOf] at hlt
        omega
      · rw [ho] at hlt
        simp only [OrderBook.levelsOf] at hlt
        omega
    exact h.2.2.2.2 o.side (b.price_to_index o.price) hnum o' hmem'
  unfold OrderBook.remove_order
  dsimp only
  repeat' split
  all_goals
    first
      | exact bookWF_of_fields _ _ rfl rfl rfl rfl rfl rfl base
      | exact bookWF_update_best_bid _ _
          (bookWF_of_fields _ _ rfl rfl rfl rfl rfl rfl base)

theorem bookWF_add_order (b : OrderBook) (o : Order) (h : BookWF b) :
    BookWF (b.add_order o).2 := by
  unfold OrderBook.add_order
  split
  · exact h
  split
  · exact h
  rename_i hval hdup
  have hv : b.is_valid_price o.price = true := by
    by_contra hc
    exact hval (by simpa using hc)
  have hidx : b.price_to_index o.price < b.num_levels :=
    valid_price_idx_lt b h.1 h.2.1 o.price hv
  have hstep : BookWF (b.setLevel o.side (b.price_to_index o.price)
      (PriceLevel.add_order
        { b.levelAt o.side (b.price_to_index o.price) with price := o.price }
        { o with status := OrderStatus.accepted })) := by
    apply bookWF_setLevel _ _ _ _ h
    intro o' hmem
    simp only [PriceLevel.add_order] at hmem
    rcases List.mem_append.mp hmem with h' | h'
    · rcases h.2.2.2.2 o.side (b.price_to_index o.price) hidx o' h'
        with ⟨h1, h2, h3, h4⟩
      have hpq : o'.price = o.price :=
        valid_price_inj b h.1 o'.price o.price h2 hv h3
      exact ⟨hpq, h2, h3, h4⟩
    · rw [List.mem_singleton.mp h']
      exact ⟨rfl, hv, rfl, rfl⟩
  unfold OrderBook.add_order_success
  cases ho : o.side
  all_goals
    rw [ho] at hstep
  all_goals
    exact bookWF_of_fields _ _ rfl rfl rfl rfl rfl rfl hstep

theorem getD_set_self (ls : List PriceLevel) (i : Nat) (l : PriceLevel)
    (h : i < ls.length) : (ls.set i l).getD i PriceLevel.zero = l := by
  simp [List.getD_eq_getElem?_getD, List.getElem?_set_self, h]

theorem getD_set_ne (ls : List PriceLevel) (i j : Nat) (l : PriceLevel)
    (h : i ≠ j) : (ls.set i l).getD j PriceLevel.zero =
      ls.getD j PriceLevel.zero := by
  simp [List.getD_eq_getElem?_getD, List.getElem?_set_ne, h]

theorem getD_replicate_zero (n i : Nat) :
    (List.replicate n PriceLevel.zero).getD i PriceLevel.zero =
      PriceLevel.zero := by
  rw [List.getD_eq_getElem?_getD, List.getElem?_replicate]
  split <;> rfl

theorem levelAt_buy_eq_getD (b : OrderBook) (j : Nat) :
    b.levelAt Side.buy j = b.bid_levels.getD j PriceLevel.zero := rfl

theorem levelAt_sell_eq_getD (b : OrderBook) (j : Nat) :
    b.levelAt Side.sell j = b.ask_levels.getD j PriceLevel.zero := rfl

theorem bidBestOk_iff (b : OrderBook) :
    BidBestOk b ↔
      (b.best_bid_idx = none ∧
        ∀ i < b.num_levels, (b.levelAt Side.buy i).orders = []) ∨
      (∃ k, b.best_bid_idx = some k ∧ k < b.num_levels ∧
        (b.levelAt Side.buy k).orders ≠ [] ∧
        ∀ i < b.num_levels, k < i → (b.levelAt Side.buy i).orders = []) := by
  unfold BidBestOk
  cases hb : b.best_bid_idx <;> simp [hb]

theorem askBestOk_iff (b : OrderBook) :
    AskBestOk b ↔
      (b.best_ask_idx = none ∧
        ∀ i < b.num_levels, (b.levelAt Side.sell i).orders = []) ∨
      (∃ k, b.best_ask_idx = some k ∧ k < b.num_levels ∧
        (b.levelAt Side.sell k).orders ≠ [] ∧
        ∀ i < b.num_levels, i < k → (b.levelAt Side.sell i).orders = []) := by
  unfold AskBestOk
  cases ha : b.best_ask_idx <;> simp [ha]

theorem bidBestOk_of_fields (b b' : OrderBook)
    (h4 : b'.num_levels = b.num_levels)
    (h5 : b'.bid_levels = b.bid_levels)
    (hbb : b'.best_bid_idx = b.best_bid_idx)
    (h : BidBestOk b) : BidBestOk b' := by
  have hL : ∀ i, b'.levelAt Side.buy i = b.levelAt Side.buy i := by
    intro i
    rw [levelAt_buy_eq_getD, levelAt_buy_eq_getD, h5]
  rw [bidBestOk_iff] at h ⊢
  rw [hbb, h4]
  simp only [hL]
  exact h

theorem askBestOk_of_fields (b b' : OrderBook)
    (h4 : b'.num_levels = b.num_levels)
    (h6 : b'.ask_levels = b.ask_levels)
    (hba : b'.best_ask_idx = b.best_ask_idx)
    (h : AskBestOk b) : AskBestOk b' := by
  have hL : ∀ i, b'.levelAt Side.sell i = b.levelAt Side.sell i := by
    intro i
    rw [levelAt_sell_eq_getD, levelAt_sell_eq_getD, h6]
  rw [askBestOk_iff] at h ⊢
  rw [hba, h4]
  simp only [hL]
  exact h

theorem update_best_bid_fields (b : OrderBook) (idx : Nat) :
    (b.update_best_bid_after_remove idx).ask_levels = b.ask_levels ∧
    (b.update_best_bid_after_remove idx).best_ask_idx = b.best_ask_idx ∧
    (b.update_best_bid_after_remove idx).num_levels = b.num_levels ∧
    (b.update_best_bid_after_remove idx).bid_levels = b.bid_levels := by
  cases idx <;> exact ⟨rfl, rfl, rfl, rfl⟩

theorem update_best_ask_fields (b : OrderBook) (idx : Nat) :
    (b.update_best_ask_after_remove idx).bid_levels = b.bid_levels ∧
    (b.update_best_ask_after_remove idx).best_bid_idx = b.best_bid_idx ∧
    (b.update_best_ask_after_remove idx).num_levels = b.num_levels ∧
    (b.update_best_ask_after_remove idx).ask_levels = b.ask_levels :=
  ⟨rfl, rfl, rfl, rfl⟩

theorem bidBestOk_after_insert (b b2 : OrderBook) (idx : Nat)
    (hnum : b2.num_levels = b.num_levels)
    (hbest : b2.best_bid_idx =
      match b.best_bid_idx with
      | none => some idx
      | some cur => if idx > cur then some idx else some cur)
    (hLself : (b2.levelAt Side.buy idx).orders ≠ [])
    (hLne : ∀ j, j ≠ idx → b2.levelAt Side.buy j = b.levelAt Side.buy j)
    (hidx : idx < b.num_levels)
    (h : BidBestOk b) : BidBestOk b2 := by
  rw [bidBestOk_iff] at h ⊢
  rcases h with ⟨hb, hall⟩ | ⟨k, hb, hklt, hkne, hkab⟩
  · right
    refine ⟨idx, by simp [hbest, hb], hnum ▸ hidx, hLself, ?_⟩
    intro i hi hlt
    rw [hLne i (by omega)]
    exact hall i (hnum ▸ hi)
  · right
    by_cases hcmp : idx > k
    · refine ⟨idx, by simp [hbest, hb, hcmp], hnum ▸ hidx, hLself, ?_⟩
      intro i hi hlt
      rw [hLne i (by omega)]
      exact hkab i (hnum ▸ hi) (by omega)
    · refine ⟨k, by simp [hbest, hb, hcmp], hnum ▸ hklt, ?_, ?_⟩
      · by_cases hki : k = idx
        · rw [hki]
          exact hLself
        · rw [hLne k hki]
          exact hkne
      · intro i hi hlt
        rw [hLne i (by omega)]
        exact hkab i (hnum ▸ hi) hlt

theorem askBestOk_after_insert (b b2 : OrderBook) (idx : Nat)
    (hnum : b2.num_levels = b.num_levels)
    (hbest : b2.best_ask_idx =
      match b.best_ask_idx with
      | none => some idx
      | some cur => if idx < cur then some idx else some cur)
    (hLself : (b2.levelAt Side.sell idx).orders ≠ [])
    (hLne : ∀ j, j ≠ idx → b2.levelAt Side.sell j = b.levelAt Side.sell j)
    (hidx : idx < b.num_levels)
    (h : AskBestOk b) : AskBestOk b2 := by
  rw [askBestOk_iff] at h ⊢
  rcases h with ⟨hb, hall⟩ | ⟨k, hb, hklt, hkne, hkab⟩
  · right
    refine ⟨idx, by simp [hbest, hb], hnum ▸ hidx, hLself, ?_⟩
    intro i hi hlt
    rw [hLne i (by omega)]
    exact hall i (hnum ▸ hi)
  · right
    by_cases hcmp : idx < k
    · refine ⟨idx, by simp [hbest, hb, hcmp], hnum ▸ hidx, hLself, ?_⟩
      intro i hi hlt
      rw [hLne i (by omega)]
      exact hkab i (hnum ▸ hi) (by omega)
    · refine ⟨k, by simp [hbest, hb, hcmp], hnum ▸ hklt, ?_, ?_⟩
      · by_cases hki : k = idx
        · rw [hki]
          exact hLself
        · rw [hLne k hki]
          exact hkne
      · intro i hi hlt
        rw [hLne i (by omega)]
        exact hkab i (hnum ▸ hi) hlt

theorem mem_level_idx_lt (b : OrderBook) (s : Side) (i : Nat) (o : Order)
    (hwf : BookWF b) (hmem : o ∈ (b.levelAt s i).orders) :
    i < b.num_levels := by
  have hne : (b.levelAt s i).orders ≠ [] := by
    intro hnil
    rw [hnil] at hmem
    exact absurd hmem (List.not_mem_nil o)
  have hlt := lt_length_of_orders_ne_nil b s i hne
  obtain ⟨_, _, hbl, hal, _⟩ := hwf
  cases s <;> simp only [OrderBook.levelsOf] at hlt <;> omega

theorem bestInv_add_order (b : OrderBook) (o : Order)
    (hwf : BookWF b) (hinv : BestIdxInv b) :
    BestIdxInv (b.add_order o).2 := by
  unfold OrderBook.add_order
  split
  · exact hinv
  split
  · exact hinv
  rename_i hval hdup
  have hv : b.is_valid_price o.price = true := by
    by_contra hc
    exact hval (by simpa using hc)
  have hidx : b.price_to_index o.price < b.num_levels :=
    valid_price_idx_lt b hwf.1 hwf.2.1 o.price hv
  have hlenb : b.price_to_index o.price < b.bid_levels.length := by
    have := hwf.2.2.1
    omega
  have hlena : b.price_to_index o.price < b.ask_levels.length := by
    have := hwf.2.2.2.1
    omega
  show BestIdxInv (b.add_order_success o)
  unfold OrderBook.add_order_success
  dsimp only
  cases hside : o.side
  case buy =>
    dsimp only [OrderBook.setLevel]
    constructor
    · refine bidBestOk_after_insert b _ (b.price_to_index o.price)
        rfl rfl ?_ ?_ hidx hinv.1
      · rw [levelAt_buy_eq_getD]
        dsimp only
        rw [getD_set_self _ _ _ hlenb]
        simp [PriceLevel.add_order]
      · intro j hj
        rw [levelAt_buy_eq_getD]
        dsimp only
        rw [getD_set_ne _ _ _ _ (Ne.symm hj)]
        exact (levelAt_buy_eq_getD b j).symm
    · exact askBestOk_of_fields _ b rfl rfl rfl hinv.2
  case sell =>
    dsimp only [OrderBook.setLevel]
    constructor
    · exact bidBestOk_of_fields _ b rfl rfl rfl hinv.1
    · refine askBestOk_after_insert b _ (b.price_to_index o.price)
        rfl rfl ?_ ?_ hidx hinv.2
      · rw [levelAt_sell_eq_getD]
        dsimp only
        rw [getD_set_self _ _ _ hlena]
        simp [PriceLevel.add_order]
      · intro j hj
        rw [levelAt_sell_eq_getD]
        dsimp only
        rw [getD_set_ne _ _ _ _ (Ne.symm hj)]
        exact (levelAt_sell_eq_getD b j).symm

theorem bidBestOk_unchanged_remove (b b2 : OrderBook) (idx k : Nat)
    (hnum : b2.num_levels = b.num_levels)
    (hbest2 : b2.best_bid_idx = some k)
    (hklt : k < b.num_levels)
    (hkab : ∀ i < b.num_levels, k < i → (b.levelAt Side.buy i).orders = [])
    (hKne : (b2.levelAt Side.buy k).orders ≠ [])
    (hLne : ∀ j, j ≠ idx → b2.levelAt Side.buy j = b.levelAt Side.buy j)
    (hik : idx ≤ k) : BidBestOk b2 := by
  rw [bidBestOk_iff]
  right
  refine ⟨k, hbest2, hnum ▸ hklt, hKne, ?_⟩
  intro i hi hlt
  rw [hLne i (by omega)]
  exact hkab i (hnum ▸ hi) hlt

theorem askBestOk_unchanged_remove (b b2 : OrderBook) (idx k : Nat)
    (hnum : b2.num_levels = b.num_levels)
    (hbest2 : b2.best_ask_idx = some k)
    (hklt : k < b.num_levels)
    (hkbl : ∀ i < b.num_levels, i < k → (b.levelAt Side.sell i).orders = [])
    (hKne : (b2.levelAt Side.sell k).orders ≠ [])
    (hLne : ∀ j, j ≠ idx → b2.levelAt Side.sell j = b.levelAt Side.sell j)
    (hik : k ≤ idx) : AskBestOk b2 := by
  rw [askBestOk_iff]
  right
  refine ⟨k, hbest2, hnum ▸ hklt, hKne, ?_⟩
  intro i hi hlt
  rw [hLne i (by omega)]
  exact hkbl i (hnum ▸ hi) hlt

theorem bestInv_remove_resting_buy (b : OrderBook) (o : Order)
    (hwf : BookWF b) (hinv : BestIdxInv b) (hside : o.side = Side.buy)
    (hmem : o ∈ (b.levelAt Side.buy (b.price_to_index o.price)).orders)
    (hi : b.price_to_index o.price < b.num_levels) :
    BestIdxInv (b.remove_order o) := by
  have hlenb : b.price_to_index o.price < b.bid_levels.length := by
    have := hwf.2.2.1
    omega
  have hone : (b.levelAt Side.buy (b.price_to_index o.price)).orders ≠ [] := by
    intro hnil
    rw [hnil] at hmem
    exact absurd hmem (List.not_mem_nil o)
  rcases (bidBestOk_iff b).mp hinv.1 with ⟨hb, hall⟩ | ⟨k, hb, hklt, hkne, hkab⟩
  · exact absurd (hall _ hi) hone
  have hik : b.price_to_index o.price ≤ k := by
    by_contra hgt
    exact hone (hkab _ hi (Nat.lt_of_not_le hgt))
  unfold OrderBook.remove_order
  rw [hside]
  dsimp only [OrderBook.setLevel]
  split
  case isTrue hemp =>
    split
    case isTrue hcnd =>
      have hkI : k = b.price_to_index o.price := by
        rw [hb] at hcnd
        exact Option.some.inj hcnd
      cases hcase : b.price_to_index o.price with
      | zero =>
        rw [hcase] at hlenb hemp hkI
        dsimp only [OrderBook.update_best_bid_after_remove]
        constructor
        · rw [bidBestOk_iff]
          left
          refine ⟨rfl, ?_⟩
          intro i2 hi2
          rw [levelAt_buy_eq_getD]
          dsimp only
          rcases Nat.eq_zero_or_pos i2 with h0 | hpos
          · subst h0
            rw [getD_set_self _ _ _ hlenb]
            exact (level_empty_iff _).mp hemp
          · rw [getD_set_ne _ _ _ _ (by omega)]
            rw [← levelAt_buy_eq_getD]
            exact hkab i2 hi2 (by omega)
        · exact askBestOk_of_fields _ b rfl rfl rfl hinv.2
      | succ j =>
        rw [hcase] at hlenb hemp hkI
        dsimp only [OrderBook.update_best_bid_after_remove]
        constructor
        · rw [bidBestOk_iff]
          cases hscan : scanDown (b.bid_levels.set (j + 1)
              (PriceLevel.remove_order (b.levelAt Side.buy (j + 1)) o)) j with
          | none =>
            have hsc := (scanDown_spec (b.bid_levels.set (j + 1)
              (PriceLevel.remove_order (b.levelAt Side.buy (j + 1)) o)) j).2
              hscan
            left
            refine ⟨rfl, ?_⟩
            intro i2 hi2
            rw [levelAt_buy_eq_getD]
            dsimp only
            rcases lt_trichotomy i2 (j + 1) with hlt | heq | hgt
            · exact hsc i2 (by omega)
            · rw [heq, getD_set_self _ _ _ hlenb]
              exact (level_empty_iff _).mp hemp
            · rw [getD_set_ne _ _ _ _ (by omega)]
              rw [← levelAt_buy_eq_getD]
              exact hkab i2 hi2 (by omega)
          | some r =>
            obtain ⟨hrj, hrne, hbet⟩ := (scanDown_spec (b.bid_levels.set (j + 1)
              (PriceLevel.remove_order (b.levelAt Side.buy (j + 1)) o)) j).1
              r hscan
            right
            refine ⟨r, rfl, show r < b.num_levels by omega, ?_, ?_⟩
            · rw [levelAt_buy_eq_getD]
              dsimp only
              exact hrne
            · intro i2 hi2 hlt2
              rw [levelAt_buy_eq_getD]
              dsimp only
              rcases lt_trichotomy i2 (j + 1) with hlt | heq | hgt
              · exact hbet i2 hlt2 (by omega)
              · rw [heq, getD_set_self _ _ _ hlenb]
                exact (level_empty_iff _).mp hemp
              · rw [getD_set_ne _ _ _ _ (by omega)]
                rw [← levelAt_buy_eq_getD]
                exact hkab i2 hi2 (by omega)
        · exact askBestOk_of_fields _ b rfl rfl rfl hinv.2
    case isFalse hcnd =>
      have hne : k ≠ b.price_to_index o.price := by
        intro he
        exact hcnd (by rw [hb, he])
      constructor
      · refine bidBestOk_unchanged_remove b _ (b.price_to_index o.price) k
          rfl hb hklt hkab ?_ ?_ hik
        · rw [levelAt_buy_eq_getD]
          dsimp only
          rw [getD_set_ne _ _ _ _ (Ne.symm hne)]
          rw [← levelAt_buy_eq_getD]
          exact hkne
        · intro j2 hj2
          rw [levelAt_buy_eq_getD]
          dsimp only
          rw [getD_set_ne _ _ _ _ (Ne.symm hj2)]
          exact (levelAt_buy_eq_getD b j2).symm
      · exact askBestOk_of_fields _ b rfl rfl rfl hinv.2
  case isFalse hemp =>
    constructor
    · by_cases hke : k = b.price_to_index o.price
      · refine bidBestOk_unchanged_remove b _ (b.price_to_index o.price) k
          rfl hb hklt hkab ?_ ?_ hik
        · rw [levelAt_buy_eq_getD]
          dsimp only
          rw [hke, getD_set_self _ _ _ hlenb]
          intro hnil
          exact hemp ((level_empty_iff _).mpr hnil)
        · intro j2 hj2
          rw [levelAt_buy_eq_getD]
          dsimp only
          rw [getD_set_ne _ _ _ _ (Ne.symm hj2)]
          exact (levelAt_buy_eq_getD b j2).symm
      · refine bidBestOk_unchanged_remove b _ (b.price_to_index o.price) k
          rfl hb hklt hkab ?_ ?_ hik
        · rw [levelAt_buy_eq_getD]
          dsimp only
          rw [getD_set_ne _ _ _ _ (Ne.symm hke)]
          rw [← levelAt_buy_eq_getD]
          exact hkne
        · intro j2 hj2
          rw [levelAt_buy_eq_getD]
          dsimp only
          rw [getD_set_ne _ _ _ _ (Ne.symm hj2)]
          exact (levelAt_buy_eq_getD b j2).symm
    · exact askBestOk_of_fields _ b rfl rfl rfl hinv.2

theorem bestInv_remove_resting_sell (b : OrderBook) (o : Order)
    (hwf : BookWF b) (hinv : BestIdxInv b) (hside : o.side = Side.sell)
    (hmem : o ∈ (b.levelAt Side.sell (b.price_to_index o.price)).orders)
    (hi : b.price_to_index o.price < b.num_levels) :
    BestIdxInv (b.remove_order o) := by
  have hlena : b.price_to_index o.price < b.ask_levels.length := by
    have := hwf.2.2.2.1
    omega
  have hone : (b.levelAt Side.sell (b.price_to_index o.price)).orders ≠ [] := by
    intro hnil
    rw [hnil] at hmem
    exact absurd hmem (List.not_mem_nil o)
  rcases (askBestOk_iff b).mp hinv.2 with ⟨hb, hall⟩ | ⟨k, hb, hklt, hkne, hkbl⟩
  · exact absurd (hall _ hi) hone
  have hik : k ≤ b.price_to_index o.price := by
    by_contra hgt
    exact hone (hkbl _ hi (Nat.lt_of_not_le hgt))
  unfold OrderBook.remove_order
  rw [hside]
  dsimp only [OrderBook.setLevel]
  split
  case isTrue hemp =>
    split
    case isTrue hcnd =>
      have hkI : k = b.price_to_index o.price := by
        rw [hb] at hcnd
        exact Option.some.inj hcnd
      dsimp only [OrderBook.update_best_ask_after_remove, scanUp]
      constructor
      · exact bidBestOk_of_fields _ b rfl rfl rfl hinv.1
      · rw [askBestOk_iff]
        cases hscan : scanUpAux (b.ask_levels.set (b.price_to_index o.price)
            (PriceLevel.remove_order
              (b.levelAt Side.sell (b.price_to_index o.price)) o))
            (b.num_levels - (b.price_to_index o.price + 1))
            (b.price_to_index o.price + 1) with
        | none =>
          have hsc := (scanUpAux_spec (b.ask_levels.set (b.price_to_index o.price)
            (PriceLevel.remove_order
              (b.levelAt Side.sell (b.price_to_index o.price)) o))
            (b.num_levels - (b.price_to_index o.price + 1))
            (b.price_to_index o.price + 1)).2 hscan
          left
          refine ⟨rfl, ?_⟩
          intro i2 hi2
          have hi2' : i2 < b.num_levels := hi2
          rw [levelAt_sell_eq_getD]
          dsimp only
          rcases lt_trichotomy i2 (b.price_to_index o.price) with hlt | heq | hgt
          · rw [getD_set_ne _ _ _ _ (by omega)]
            rw [← levelAt_sell_eq_getD]
            exact hkbl i2 hi2 (by omega)
          · rw [heq, getD_set_self _ _ _ hlena]
            exact (level_empty_iff _).mp hemp
          · exact hsc i2 (by omega) (by omega)
        | some r =>
          obtain ⟨hr1, hr2, hrne, hbef⟩ :=
            (scanUpAux_spec (b.ask_levels.set (b.price_to_index o.price)
              (PriceLevel.remove_order
                (b.levelAt Side.sell (b.price_to_index o.price)) o))
              (b.num_levels - (b.price_to_index o.price + 1))
              (b.price_to_index o.price + 1)).1 r hscan
          right
          refine ⟨r, rfl, show r < b.num_levels by omega, ?_, ?_⟩
          · rw [levelAt_sell_eq_getD]
            dsimp only
            exact hrne
          · intro i2 hi2 hlt2
            have hi2' : i2 < b.num_levels := hi2
            rw [levelAt_sell_eq_getD]
            dsimp only
            rcases lt_trichotomy i2 (b.price_to_index o.price) with hlt | heq | hgt
            · rw [getD_set_ne _ _ _ _ (by omega)]
              rw [← levelAt_sell_eq_getD]
              exact hkbl i2 hi2 (by omega)
            · rw [heq, getD_set_self _ _ _ hlena]
              exact (level_empty_iff _).mp hemp
            · exact hbef i2 (by omega) hlt2
    case isFalse hcnd =>
      have hne : k ≠ b.price_to_index o.price := by
        intro he
        exact hcnd (by rw [hb, he])
      constructor
      · exact bidBestOk_of_fields _ b rfl rfl rfl hinv.1
      · refine askBestOk_unchanged_remove b _ (b.price_to_index o.price) k
          rfl hb hklt hkbl ?_ ?_ hik
        · rw [levelAt_sell_eq_getD]
          dsimp only
          rw [getD_set_ne _ _ _ _ (Ne.symm hne)]
          rw [← levelAt_sell_eq_getD]
          exact hkne
        · intro j2 hj2
          rw [levelAt_sell_eq_getD]
          dsimp only
          rw [getD_set_ne _ _ _ _ (Ne.symm hj2)]
          exact (levelAt_sell_eq_getD b j2).symm
  case isFalse hemp =>
    constructor
    · exact bidBestOk_of_fields _ b rfl rfl rfl hinv.1
    · by_cases hke : k = b.price_to_index o.price
      · refine askBestOk_unchanged_remove b _ (b.price_to_index o.price) k
          rfl hb hklt hkbl ?_ ?_ hik
        · rw [levelAt_sell_eq_getD]
          dsimp only
          rw [hke, getD_set_self _ _ _ hlena]
          intro hnil
          exact hemp ((level_empty_iff _).mpr hnil)
        · intro j2 hj2
          rw [levelAt_sell_eq_getD]
          dsimp only
          rw [getD_set_ne _ _ _ _ (Ne.symm hj2)]
          exact (levelAt_sell_eq_getD b j2).symm
      · refine askBestOk_unchanged_remove b _ (b.price_to_index o.price) k
          rfl hb hklt hkbl ?_ ?_ hik
        · rw [levelAt_sell_eq_getD]
          dsimp only
          rw [getD_set_ne _ _ _ _ (Ne.symm hke)]
          rw [← levelAt_sell_eq_getD]
          exact hkne
        · intro j2 hj2
          rw [levelAt_sell_eq_getD]
          dsimp only
          rw [getD_set_ne _ _ _ _ (Ne.symm hj2)]
          exact (levelAt_sell_eq_getD b j2).symm

theorem bestInv_remove_resting (b : OrderBook) (s : Side) (i : Nat) (o : Order)
    (hwf : BookWF b) (hinv : BestIdxInv b)
    (hmem : o ∈ (b.levelAt s i).orders) (hi : i < b.num_levels) :
    BestIdxInv (b.remove_order o) := by
  obtain ⟨hop, hov, hoi, hos⟩ := hwf.2.2.2.2 s i hi o hmem
  subst hos
  rw [← hoi] at hmem hi
  cases hsd : o.side with
  | buy =>
    rw [hsd] at hmem
    exact bestInv_remove_resting_buy b o hwf hinv hsd hmem hi
  | sell =>
    rw [hsd] at hmem
    exact bestInv_remove_resting_sell b o hwf hinv hsd hmem hi

theorem bookWF_cancel (b : OrderBook) (id : Nat) (h : BookWF b) :
    BookWF (b.cancel_order id).2 := by
  unfold OrderBook.cancel_order
  cases hf : b.findOrder id with
  | none => exact h
  | some p =>
    obtain ⟨s, i, o⟩ := p
    exact bookWF_remove_order b o h

theorem bestInv_cancel (b : OrderBook) (id : Nat)
    (hwf : BookWF b) (hinv : BestIdxInv b) :
    BestIdxInv (b.cancel_order id).2 := by
  unfold OrderBook.cancel_order
  cases hf : b.findOrder id with
  | none => exact hinv
  | some p =>
    obtain ⟨s, i, o⟩ := p
    obtain ⟨hmem, _⟩ := findOrder_spec b id s i o hf
    exact bestInv_remove_resting b s i o hwf hinv hmem
      (mem_level_idx_lt b s i o hwf hmem)

theorem bookWF_applyOp (b : OrderBook) (op : BookOp) (h : BookWF b) :
    BookWF (applyOp b op) := by
  cases op with
  | add o => exact bookWF_add_order b o h
  | cancel id => exact bookWF_cancel b id h
  | removeById id =>
    simp only [applyOp]
    cases hf : b.findOrder id with
    | none => exact h
    | some p =>
      obtain ⟨s, i, o⟩ := p
      exact bookWF_remove_order b o h

theorem bestInv_applyOp (b : OrderBook) (op : BookOp)
    (hwf : BookWF b) (hinv : BestIdxInv b) : BestIdxInv (applyOp b op) := by
  cases op with
  | add o => exact bestInv_add_order b o hwf hinv
  | cancel id => exact bestInv_cancel b id hwf hinv
  | removeById id =>
    simp only [applyOp]
    cases hf : b.findOrder id with
    | none => exact hinv
    | some p =>
      obtain ⟨s, i, o⟩ := p
      obtain ⟨hmem, _⟩ := findOrder_spec b id s i o hf
      exact bestInv_remove_resting b s i o hwf hinv hmem
        (mem_level_idx_lt b s i o hwf hmem)

theorem wfInv_applyOps (ops : List BookOp) :
    ∀ b : OrderBook, BookWF b → BestIdxInv b →
      BookWF (applyOps b ops) ∧ BestIdxInv (applyOps b ops) := by
  induction ops with
  | nil => exact fun b hwf hinv => ⟨hwf, hinv⟩
  | cons op rest ih =>
    intro b hwf hinv
    exact ih (applyOp b op) (bookWF_applyOp b op hwf)
      (bestInv_applyOp b op hwf hinv)

theorem levelAt_init (minP maxP tick : Int) (s : Side) (i : Nat) :
    (OrderBook.init minP maxP tick).levelAt s i = PriceLevel.zero := by
  cases s
  · exact getD_replicate_zero _ _
  · exact getD_replicate_zero _ _

theorem bookWF_init (minP maxP tick : Int) (h : 0 < tick) :
    BookWF (OrderBook.init minP maxP tick) := by
  refine ⟨h, rfl, by simp [OrderBook.init], by simp [OrderBook.init], ?_⟩
  intro s i hi o hmem
  rw [levelAt_init] at hmem
  exact absurd hmem (List.not_mem_nil o)

theorem bestInv_init (minP maxP tick : Int) :
    BestIdxInv (OrderBook.init minP maxP tick) := by
  constructor
  · rw [bidBestOk_iff]
    left
    refine ⟨rfl, ?_⟩
    intro i hi
    rw [levelAt_init]
    rfl
  · rw [askBestOk_iff]
    left
    refine ⟨rfl, ?_⟩
    intro i hi
    rw [levelAt_init]
    rfl

/-- C3: After every sequence of `add_order`, `cancel_order` and
`remove_order` operations on a freshly constructed order book (positive
tick size), `best_bid_idx` equals the maximum index of a non-empty bid
level (or the sentinel when all bid levels are empty) and `best_ask_idx`
equals the minimum index of a non-empty ask level (or the sentinel when
all ask levels are empty). -/
theorem c3_best_idx_invariant (minP maxP tick : Int) (h : 0 < tick)
    (ops : List BookOp) :
    BestIdxInv (applyOps (OrderBook.init minP maxP tick) ops) :=
  (wfInv_applyOps ops (OrderBook.init minP maxP tick)
    (bookWF_init minP maxP tick h) (bestInv_init minP maxP tick)).2

/-- C3 witness: the invariant theorem applied to a concrete book over
prices 1..10 with tick 1 and a concrete operation sequence exercising
adds on both sides, a cancel and a remove. -/
theorem c3_best_idx_invariant_witness :
    (0 : Int) < 1 ∧
    BestIdxInv (applyOps (OrderBook.init 1 10 1)
      [BookOp.add (mkOrder 1 7 Side.buy OrderType.limit 3 50),
       BookOp.add (mkOrder 2 7 Side.buy OrderType.limit 5 30),
       BookOp.add (mkOrder 3 8 Side.sell OrderType.limit 7 20),
       BookOp.cancel 2,
       BookOp.removeById 3]) :=
  ⟨by decide,
   c3_best_idx_invariant 1 10 1 (by decide)
     [BookOp.add (mkOrder 1 7 Side.buy OrderType.limit 3 50),
      BookOp.add (mkOrder 2 7 Side.buy OrderType.limit 5 30),
      BookOp.add (mkOrder 3 8 Side.sell OrderType.limit 7 20),
      BookOp.cancel 2,
      BookOp.removeById 3]⟩


theorem tradeFold_events_length (ts : List Trade) :
    ∀ acc s, ((ts.foldl tradeEventStep (acc, s)).1).length =
      acc.length + ts.length := by
  induction ts with
  | nil => intro acc s; simp
  | cons t rest ih =>
    intro acc s
    simp only [List.foldl_cons, tradeEventStep]
    rw [ih]
    simp
    omega

theorem tradeFold_events_mem (ts : List Trade) :
    ∀ acc s e, e ∈ (ts.foldl tradeEventStep (acc, s)).1 →
      e ∈ acc ∨ e.type = EventType.trade := by
  induction ts with
  | nil => intro acc s e he; exact Or.inl he
  | cons t rest ih =>
    intro acc s e he
    simp only [List.foldl_cons, tradeEventStep] at he
    rcases ih _ _ _ he with h | h
    · rcases List.mem_append.mp h with h' | h'
      · exact Or.inl h'
      · right
        rw [List.mem_singleton.mp h']
    · exact Or.inr h

theorem terminalTag_ne_trade (ms : MatchStatus) :
    (terminalTagStatus ms).1 ≠ EventType.trade := by
  cases ms <;> simp [terminalTagStatus]

theorem decompose_and_publish_shape (res : MatchResult) (oc : Order)
    (seq : Nat) :
    EventsShape (decompose_and_publish res oc seq).1 res.trades.length := by
  refine ⟨(res.trades.foldl tradeEventStep ([], seq)).1, _, rfl, ?_, ?_, ?_⟩
  · have h := tradeFold_events_length res.trades [] seq
    simpa using h
  · intro e he
    rcases tradeFold_events_mem res.trades [] seq e he with h | h
    · exact absurd h (List.not_mem_nil e)
    · exact h
  · exact terminalTag_ne_trade res.status

theorem publish_rejection_shape (src : Order) (seq : Nat) :
    EventsShape (publish_rejection src seq).1 0 := by
  refine ⟨[], _, rfl, rfl, ?_, ?_⟩
  · intro e he
    exact absurd he (List.not_mem_nil e)
  · intro h
    exact absurd h (by simp [publish_rejection])

theorem execute_fill_trades (a r : Order) (f : Nat) (l : PriceLevel)
    (c : Nat) (res : MatchResult) :
    (execute_fill a r f l c res).2.2.2.2.trades =
      res.trades ++ [fillTrade a r f (c + 1)] := rfl

theorem fillTrade_timestamp (a r : Order) (f i : Nat) :
    (fillTrade a r f i).timestamp = a.timestamp := rfl

theorem fill_step_mem (o resting : Order) (fq : Nat) (lv : PriceLevel)
    (c : Nat) (res : MatchResult) (t : Trade)
    (h : t ∈ ((execute_fill o resting fq lv c res).2.2.2.2).trades ∨
      t.timestamp = (execute_fill o resting fq lv c res).1.timestamp) :
    t ∈ res.trades ∨ t.timestamp = o.timestamp := by
  rcases h with h | h
  · rw [execute_fill_trades] at h
    rcases List.mem_append.mp h with h' | h'
    · exact Or.inl h'
    · right
      rw [List.mem_singleton.mp h']
      rfl
  · right
    rw [h]
    rfl

theorem match_loop_trades_mem (stp : SelfTradePreventionMode) :
    ∀ fuel st o res t, t ∈ (match_loop stp fuel st o res).2.2.trades →
      t ∈ res.trades ∨ t.timestamp = o.timestamp := by
  intro fuel
  induction fuel with
  | zero => intro st o res t ht; exact Or.inl ht
  | succ n ih =>
    intro st o res t ht
    rw [match_loop] at ht
    dsimp only at ht
    repeat' split at ht
    all_goals
      first
        | exact Or.inl ht
        | exact ih _ _ _ _ ht
        | exact fill_step_mem _ _ _ _ _ _ _ (ih _ _ _ _ ht)

theorem U64_pos : 0 < U64 := Nat.pos_pow_of_pos 64 (by decide)

theorem add64_lt (a b : Nat) : add64 a b < U64 :=
  Nat.mod_lt _ U64_pos

theorem askWalkAux_eq (ls : List PriceLevel) (m : Nat) :
    ∀ fuel i acc, acc < U64 →
      askWalkAux ls m fuel i acc =
        (acc + ((List.range' i (min (m + 1 - i) fuel)).map
          (fun j => (ls.getD j PriceLevel.zero).total_quantity)).sum) % U64 := by
  intro fuel
  induction fuel with
  | zero =>
    intro i acc hacc
    simp [askWalkAux, Nat.mod_eq_of_lt hacc]
  | succ f ih =>
    intro i acc hacc
    unfold askWalkAux
    by_cases h : i ≤ m
    · rw [if_pos h, ih (i + 1) _ (add64_lt _ _)]
      have hc : min (m + 1 - i) (f + 1) = min (m + 1 - (i + 1)) f + 1 := by
        omega
      rw [hc, List.range'_succ]
      simp only [List.map_cons, List.sum_cons, add64]
      rw [Nat.mod_add_mod]
      ring_nf
    · rw [if_neg h]
      have hc : min (m + 1 - i) (f + 1) = 0 := by omega
      rw [hc]
      simp [Nat.mod_eq_of_lt hacc]

theorem askWalk_eq (ls : List PriceLevel) (m n i : Nat) :
    askWalk ls m n i 0 = sumTq ls i (min (m + 1) n - i) := by
  unfold askWalk sumTq
  rw [askWalkAux_eq ls m (n - i) i 0 U64_pos]
  have h : min (m + 1 - i) (n - i) = min (m + 1) n - i := by omega
  rw [h]
  simp

theorem bidWalk_eq (ls : List PriceLevel) (mi : Nat) :
    ∀ i acc, acc < U64 →
      bidWalk ls mi i acc =
        (acc + ((List.range' (if mi ≤ i then mi else 0)
            (i + 1 - if mi ≤ i then mi else 0)).map
          (fun j => (ls.getD j PriceLevel.zero).total_quantity)).sum) % U64 := by
  intro i
  induction i with
  | zero =>
    intro acc hacc
    have h0 : (if mi ≤ 0 then mi else 0) = 0 := by
      by_cases hmi : mi ≤ 0 <;> simp [hmi]; omega
    rw [bidWalk, h0]
    simp [add64]
  | succ j ih =>
    intro acc hacc
    rw [bidWalk]
    by_cases h : j + 1 = mi
    · rw [if_pos h]
      have hle : mi ≤ j + 1 := by omega
      rw [if_pos hle]
      have hc : j + 1 + 1 - mi = 1 := by omega
      rw [hc, ← h]
      simp [add64]
    · rw [if_neg h, ih _ (add64_lt _ _)]
      by_cases hmi : mi ≤ j
      · rw [if_pos hmi, if_pos (by omega : mi ≤ j + 1)]
        have hc : j + 1 + 1 - mi = (j + 1 - mi) + 1 := by omega
        rw [hc, List.range'_concat]
        have hj : mi + 1 * (j + 1 - mi) = j + 1 := by omega
        rw [hj]
        simp only [List.map_append, List.sum_append, List.map_cons,
          List.sum_cons, List.map_nil, List.sum_nil, add64]
        rw [Nat.mod_add_mod]
        ring_nf
      · have hgt : ¬ mi ≤ j + 1 := by omega
        rw [if_neg hmi, if_neg hgt]
        have hc : j + 1 + 1 - 0 = (j + 1 - 0) + 1 := by omega
        rw [hc, List.range'_concat]
        have hj : 0 + 1 * (j + 1 - 0) = j + 1 := by omega
        rw [hj]
        simp only [List.map_append, List.sum_append, List.map_cons,
          List.sum_cons, List.map_nil, List.sum_nil, add64]
        rw [Nat.mod_add_mod]
        ring_nf

/-- C4 (amended): `available_quantity(side, limit_price)` walks the side's
flat array from the cached best index toward the tick index of the limit
price clamped into the book's range, summing `total_quantity` mod `2^64`
(0 when the side is empty).  On the ask side the walk covers exactly the
inclusive index range from `best_ask_idx` to the clamped limit index
(bounded by the array), and is 0 when the limit index falls short of the
best.  On the bid side the walk adds the best level before its bound
check: when the limit index is at most `best_bid_idx` it covers exactly
the inclusive range between them, but when the limit index is above the
best (a sell-side limit above the best bid) the bound is never reached
and the walk sums every level from `best_bid_idx` down to index 0 —
it does not return 0. -/
theorem c4_available_quantity_characterization (b : OrderBook) (s : Side)
    (limit : Int) :
    b.available_quantity s limit =
      match s with
      | Side.sell =>
        match b.best_ask_idx with
        | none => 0
        | some k =>
          sumTq b.ask_levels k (min (askLimitIdx b limit + 1) b.num_levels - k)
      | Side.buy =>
        match b.best_bid_idx with
        | none => 0
        | some k =>
          if bidLimitIdx b limit ≤ k then
            sumTq b.bid_levels (bidLimitIdx b limit)
              (k + 1 - bidLimitIdx b limit)
          else
            sumTq b.bid_levels 0 (k + 1) := by
  cases s with
  | sell =>
    cases hk : b.best_ask_idx with
    | none => simp [OrderBook.available_quantity, hk]
    | some k =>
      simp only [OrderBook.available_quantity, hk]
      unfold askLimitIdx
      exact askWalk_eq _ _ _ _
  | buy =>
    cases hk : b.best_bid_idx with
    | none => simp [OrderBook.available_quantity, hk]
    | some k =>
      simp only [OrderBook.available_quantity, hk]
      unfold bidLimitIdx
      rw [bidWalk_eq _ _ _ _ U64_pos]
      by_cases h :
        b.price_to_index (if limit < b.min_price then b.min_price else limit)
          ≤ k
      · simp only [if_pos h, sumTq]
        simp
      · simp only [if_neg h, sumTq]
        simp

/-- C4 as stated is refuted on the code by this input: bids of 40 at
price 3 and 60 at price 5 (best bid index 4) and a sell-side limit price
of 7, above the best bid.  The claim says the walk terminates at zero and
the result is 0 (and the inclusive best-to-limit index range, 4..6,
carries no quantity), but `available_quantity` returns 100 — the entire
bid-side liquidity. -/
theorem c4_sell_limit_above_best_counterexample :
    c4Book.best_bid_idx = some 4 ∧
    (c4Book.levelAt Side.buy 4).price = 5 ∧
    c4Book.is_valid_price 7 = true ∧
    c4Book.price_to_index 7 = 6 ∧
    sumTq c4Book.bid_levels 6 (4 + 1 - 6) = 0 ∧
    c4Book.available_quantity Side.buy 7 = 100 ∧
    (100 : Nat) ≠ 0 := by
  refine ⟨by decide, by decide, by decide, by decide, by decide, by decide,
    by decide⟩

/-- C1: For every command whose result status is rejected, the order book
is left exactly as it was before the command — REFUTED on the code at this
input: a FOK buy from participant 7 for 100 at price 5, against resting
sells: 50 from participant 7 and 50 from participant 8 (engine in
`CancelOldest` self-trade-prevention mode).  The feasibility check passes
(100 available), matching removes the same-participant resting order by
STP and fills 50 against the other, the FOK cannot complete, and
`submit_order`'s defensive branch reports `Rejected` — after the book has
been mutated (both resting orders are gone). -/
theorem c1_rejected_fok_mutates_book :
    check_fok_feasibility c1Pre.book c1Fok = true ∧
    c1Run.2.status = MatchStatus.rejected ∧
    c1Run.2.trades.length = 1 ∧
    c1Run.1.book ≠ c1Pre.book ∧
    c1Pre.book.order_count = 2 ∧ c1Run.1.book.order_count = 0 := by
  have h2 : c1Pre.book.order_count = 2 := by decide
  have h0 : c1Run.1.book.order_count = 0 := by decide
  refine ⟨by decide, by decide, by decide, ?_, h2, h0⟩
  intro h
  rw [h, h2] at h0
  exact absurd h0 (by decide)

/-- C7: every published event carries the gateway's instrument id —
REFUTED on the code: the `EventMessage` record of
`src/transport/message.h` has no instrument-id field at all, and
`order_gateway.cpp` never writes one, so two gateways that differ only in
their instrument id publish byte-identical event streams for every
command. -/
theorem c7_events_carry_no_instrument_id (stp : SelfTradePreventionMode)
    (eng : EngineState) (iA iB seq np nr : Nat) (msg : OrderMessage)
    (id : Nat) :
    (process_order stp ⟨eng, iA, seq, np, nr⟩ msg).2.2 =
      (process_order stp ⟨eng, iB, seq, np, nr⟩ msg).2.2 ∧
    (process_modify stp ⟨eng, iA, seq, np, nr⟩ msg).2.2 =
      (process_modify stp ⟨eng, iB, seq, np, nr⟩ msg).2.2 ∧
    (process_cancel ⟨eng, iA, seq, np, nr⟩ id).2.2 =
      (process_cancel ⟨eng, iB, seq, np, nr⟩ id).2.2 := by
  refine ⟨?_, ?_, ?_⟩
  · dsimp only [process_order]
    split
    · rfl
    split
    · rfl
    split
    · rfl
    rfl
  · dsimp only [process_modify]
    split
    · rfl
    split
    · rfl
    split
    · rfl
    rfl
  · dsimp only [process_cancel]
    split
    · rfl
    rfl

/-- C6: for every `process_order` or `process_modify` call with an event
channel attached, the gateway publishes all trade events of the match
result first, then exactly one terminal (non-trade) status event, with no
further events of that submission after it; the number of trade events
equals the result's trade count. -/
theorem c6_trades_published_before_single_terminal
    (stp : SelfTradePreventionMode) (gw : GatewayState)
    (msg : OrderMessage) :
    EventsShape (process_order stp gw msg).2.2
      (process_order stp gw msg).1.trade_count ∧
    EventsShape (process_modify stp gw msg).2.2
      (process_modify stp gw msg).1.trade_count := by
  constructor
  · dsimp only [process_order]
    split
    · exact publish_rejection_shape _ _
    split
    · exact publish_rejection_shape _ _
    split
    · exact publish_rejection_shape _ _
    · exact decompose_and_publish_shape _ _ _
  · dsimp only [process_modify]
    split
    · exact publish_rejection_shape _ _
    split
    · exact publish_rejection_shape _ _
    split
    · exact publish_rejection_shape _ _
    · exact decompose_and_publish_shape _ _ _

/-- C9: whenever gateway-level validation passes (quantity > 0, and
price > 0 for non-market orders) and pool allocation succeeds,
`process_order` returns `accepted = true` with no reject reason, and the
engine's outcome — including an engine-level rejection — is visible only
through `match_status`. -/
theorem c9_gateway_accepts_despite_engine_rejection
    (stp : SelfTradePreventionMode) (gw : GatewayState) (msg : OrderMessage)
    (hq : msg.order.quantity ≠ 0)
    (hp : msg.order.type = OrderType.market ∨ 0 < msg.order.price)
    (hpool : gw.engine.pool_free ≠ 0) :
    (process_order stp gw msg).1.accepted = true ∧
    (process_order stp gw msg).1.reject_reason = GatewayRejectReason.none ∧
    (process_order stp gw msg).1.match_status =
      (submit_order stp
        { gw.engine with pool_free := gw.engine.pool_free - 1 }
        { msg.order with
            status := OrderStatus.new, filled_quantity := 0 }).2.status := by
  have h2 : ¬ (msg.order.type ≠ OrderType.market ∧ msg.order.price ≤ 0) := by
    rcases hp with h | h
    · exact fun hc => hc.1 h
    · exact fun hc => absurd hc.2 (not_le.mpr h)
  unfold process_order
  rw [if_neg hq, if_neg h2, if_neg hpool]
  exact ⟨rfl, rfl, rfl⟩

/-- Witness for C9 at a concrete input: a positive-price limit order above
the book's price range passes gateway validation, the engine rejects it,
and the gateway still reports `accepted = true` with `match_status =
Rejected` and no reject reason. -/
theorem c9_gateway_accepts_witness :
    (c9Msg.order.quantity ≠ 0 ∧
     (c9Msg.order.type = OrderType.market ∨ 0 < c9Msg.order.price) ∧
     gw0.engine.pool_free ≠ 0) ∧
    ((process_order SelfTradePreventionMode.none gw0 c9Msg).1.accepted =
        true ∧
     (process_order SelfTradePreventionMode.none gw0 c9Msg).1.reject_reason =
        GatewayRejectReason.none ∧
     (process_order SelfTradePreventionMode.none gw0 c9Msg).1.match_status =
       (submit_order SelfTradePreventionMode.none
         { gw0.engine with pool_free := gw0.engine.pool_free - 1 }
         { c9Msg.order with
             status := OrderStatus.new, filled_quantity := 0 }).2.status) ∧
    (process_order SelfTradePreventionMode.none gw0 c9Msg).1.match_status =
      MatchStatus.rejected :=
  ⟨⟨by decide, by decide, by decide⟩,
   c9_gateway_accepts_despite_engine_rejection SelfTradePreventionMode.none
     gw0 c9Msg (by decide) (by decide) (by decide),
   by decide⟩

/-- C10: every trade generated by the matching engine carries the
aggressive (incoming) order's timestamp, never the resting order's, for
every fill of any submission. -/
theorem c10_trades_carry_aggressive_timestamp
    (stp : SelfTradePreventionMode) (st : EngineState) (o : Order) :
    ∀ t ∈ (submit_order stp st o).2.trades, t.timestamp = o.timestamp := by
  intro t ht
  rw [submit_order] at ht
  dsimp only at ht
  repeat' split at ht
  all_goals
    first
      | exact absurd ht (List.not_mem_nil t)
      | exact (match_loop_trades_mem stp _ _ _ _ _ ht).resolve_left
          (List.not_mem_nil t)

/-- Witness for C10 at a concrete input: the buy with timestamp 99 fills
against a resting sell with timestamp 1, and the recorded trade carries
timestamp 99. -/
theorem c10_trades_timestamp_witness :
    (c10Trade ∈ (submit_order SelfTradePreventionMode.none c2St c2Buy).2.trades) ∧
    c10Trade.timestamp = c2Buy.timestamp ∧ c2Buy.timestamp = 99 :=
  ⟨by decide,
   c10_trades_carry_aggressive_timestamp SelfTradePreventionMode.none c2St
     c2Buy c10Trade (by decide),
   by decide⟩


/-! ## The match loop under no crossing, resting-order uniqueness, and modify (C5) -/

theorem match_loop_status (stp : SelfTradePreventionMode) :
    ∀ fuel st o res,
      (match_loop stp fuel st o res).2.2.status = res.status ∨
      (match_loop stp fuel st o res).2.2.status =
        MatchStatus.selfTradePrevented := by
  intro fuel
  induction fuel with
  | zero => intro st o res; exact Or.inl rfl
  | succ n ih =>
    intro st o res
    rw [match_loop]
    dsimp only
    repeat' split
    all_goals
      first
        | exact Or.inl rfl
        | exact Or.inr rfl
        | exact ih _ _ _

theorem match_loop_order_type (stp : SelfTradePreventionMode) :
    ∀ fuel st o res, (match_loop stp fuel st o res).2.1.type = o.type := by
  intro fuel
  induction fuel with
  | zero => intro st o res; rfl
  | succ n ih =>
    intro st o res
    rw [match_loop]
    dsimp only
    repeat' split
    all_goals
      first
        | rfl
        | exact ih _ _ _

theorem match_loop_no_cross (stp : SelfTradePreventionMode) (fuel : Nat)
    (st : EngineState) (o : Order) (res : MatchResult)
    (hnc : ∀ lv, bestOppositeLevel st.book o.side = some lv →
      price_crosses o lv = false) :
    match_loop stp (fuel + 1) st o res = (st, o, res) := by
  rw [match_loop]
  dsimp only
  split
  · rfl
  cases hside : o.side with
  | buy =>
    cases hidx : st.book.best_ask_idx with
    | none => rfl
    | some idx =>
      dsimp only [Side.opposite]
      split
      · rfl
      case isFalse hc =>
        have hlv : bestOppositeLevel st.book o.side =
            some (st.book.levelAt Side.sell idx) := by
          rw [hside]
          unfold bestOppositeLevel OrderBook.best_ask_level
          rw [hidx]
        have := hnc _ hlv
        rw [this] at hc
        exact absurd (by decide : ¬(false = true)) hc
  | sell =>
    cases hidx : st.book.best_bid_idx with
    | none => rfl
    | some idx =>
      dsimp only [Side.opposite]
      split
      · rfl
      case isFalse hc =>
        have hlv : bestOppositeLevel st.book o.side =
            some (st.book.levelAt Side.buy idx) := by
          rw [hside]
          unfold bestOppositeLevel OrderBook.best_bid_level
          rw [hidx]
        have := hnc _ hlv
        rw [this] at hc
        exact absurd (by decide : ¬(false = true)) hc

theorem countP_flatten_levels (p : Order → Bool) :
    ∀ L : List (List Order),
      L.flatten.countP p = (L.map (List.countP p)).sum := by
  intro L
  induction L with
  | nil => rfl
  | cons l rest ih => simp [List.countP_append, ih]

theorem sum_set_nat :
    ∀ (l : List Nat) (i x : Nat), i < l.length →
      (l.set i x).sum + l.getD i 0 = l.sum + x := by
  intro l
  induction l with
  | nil =>
    intro i x h
    simp at h
  | cons a t ih =>
    intro i x h
    cases i with
    | zero =>
      simp only [List.set_cons_zero, List.sum_cons, List.getD_cons_zero]
      omega
    | succ n =>
      simp only [List.set_cons_succ, List.sum_cons, List.getD_cons_succ]
      have := ih n x (by simpa using h)
      omega

theorem countP_eraseById (id : Nat) :
    ∀ l : List Order, (∃ o ∈ l, o.order_id = id) →
      (eraseById l id).countP (fun o => o.order_id == id) + 1 =
        l.countP (fun o => o.order_id == id) := by
  intro l
  induction l with
  | nil =>
    intro h
    simp at h
  | cons x rest ih =>
    intro h
    rw [eraseById]
    split
    case isTrue hx =>
      rw [List.countP_cons]
      simp [hx]
    case isFalse hx =>
      have hpx : (x.order_id == id) = false := by simp [hx]
      rw [List.countP_cons, List.countP_cons, hpx]
      have hrest : ∃ o ∈ rest, o.order_id = id := by
        rcases h with ⟨o, ho, hoid⟩
        rcases List.mem_cons.mp ho with he | hm
        · exact absurd (he ▸ hoid) hx
        · exact ⟨o, hm, hoid⟩
      have := ih hrest
      omega

theorem countP_le_one_of_nodup (id : Nat) :
    ∀ l : List Order, (l.map Order.order_id).Nodup →
      l.countP (fun o => o.order_id == id) ≤ 1 := by
  intro l
  induction l with
  | nil =>
    intro h
    simp
  | cons x rest ih =>
    intro h
    rw [List.map_cons, List.nodup_cons] at h
    obtain ⟨hx, hrest⟩ := h
    rw [List.countP_cons]
    by_cases hid : x.order_id = id
    · have h0 : rest.countP (fun o => o.order_id == id) = 0 := by
        rw [List.countP_eq_zero]
        intro o ho
        simp only [beq_iff_eq]
        intro he
        have hmm : o.order_id ∈ rest.map Order.order_id :=
          List.mem_map_of_mem Order.order_id ho
        rw [he, ← hid] at hmm
        exact hx hmm
      simp [hid, h0]
    · have hpx : (x.order_id == id) = false := by simp [hid]
      rw [hpx]
      have := ih hrest
      simp only [Bool.false_eq_true, if_false]
      omega

theorem mem_ordersOnSide (b : OrderBook) (s : Side) (i : Nat) (o : Order)
    (hi : i < (b.levelsOf s).length) (ho : o ∈ (b.levelAt s i).orders) :
    o ∈ b.ordersOnSide s := by
  unfold OrderBook.ordersOnSide
  rw [List.mem_flatten]
  refine ⟨(b.levelAt s i).orders, ?_, ho⟩
  rw [List.mem_map]
  refine ⟨b.levelAt s i, ?_, rfl⟩
  unfold OrderBook.levelAt
  rw [List.getD_eq_getElem?_getD]
  simp only [List.getElem?_eq_getElem hi, Option.getD_some]
  exact List.getElem_mem hi

theorem getD_map_countP (p : Order → Bool) (L : List PriceLevel) (i : Nat)
    (h : i < L.length) :
    (L.map (fun l => l.orders.countP p)).getD i 0 =
      ((L.getD i PriceLevel.zero).orders.countP p) := by
  rw [List.getD_eq_getElem?_getD, List.getD_eq_getElem?_getD]
  rw [List.getElem?_map]
  simp [List.getElem?_eq_getElem h]

theorem no_id_of_flatten_count_zero (p : Order → Bool) (L : List PriceLevel)
    (h : ((L.map PriceLevel.orders).flatten.countP p) = 0) :
    ∀ l ∈ L, ∀ o ∈ l.orders, ¬ p o = true := by
  intro l hl o ho
  have hm : o ∈ (L.map PriceLevel.orders).flatten :=
    List.mem_flatten.mpr ⟨l.orders, List.mem_map_of_mem _ hl, ho⟩
  exact List.countP_eq_zero.mp h o hm

theorem update_best_bid_static (b : OrderBook) (idx : Nat) :
    (b.update_best_bid_after_remove idx).min_price = b.min_price ∧
    (b.update_best_bid_after_remove idx).max_price = b.max_price ∧
    (b.update_best_bid_after_remove idx).tick_size = b.tick_size ∧
    (b.update_best_bid_after_remove idx).num_levels = b.num_levels := by
  cases idx <;> exact ⟨rfl, rfl, rfl, rfl⟩

theorem remove_order_static (b : OrderBook) (o : Order) :
    (b.remove_order o).min_price = b.min_price ∧
    (b.remove_order o).max_price = b.max_price ∧
    (b.remove_order o).tick_size = b.tick_size ∧
    (b.remove_order o).num_levels = b.num_levels := by
  unfold OrderBook.remove_order
  dsimp only
  cases o.side
  all_goals dsimp only [OrderBook.setLevel]
  all_goals repeat' split
  all_goals
    first
      | exact ⟨rfl, rfl, rfl, rfl⟩
      | exact update_best_bid_static _ _

theorem remove_order_valid_price (b : OrderBook) (o : Order) (p : Int) :
    (b.remove_order o).is_valid_price p = b.is_valid_price p := by
  obtain ⟨h1, h2, h3, _⟩ := remove_order_static b o
  unfold OrderBook.is_valid_price
  rw [h1, h2, h3]

theorem remove_order_price_to_index (b : OrderBook) (o : Order) (p : Int) :
    (b.remove_order o).price_to_index p = b.price_to_index p := by
  obtain ⟨h1, _, h3, _⟩ := remove_order_static b o
  unfold OrderBook.price_to_index
  rw [h1, h3]

theorem remove_order_levelsOf_same (b : OrderBook) (o : Order) :
    (b.remove_order o).levelsOf o.side =
      (b.levelsOf o.side).set (b.price_to_index o.price)
        (PriceLevel.remove_order
          (b.levelAt o.side (b.price_to_index o.price)) o) := by
  unfold OrderBook.remove_order
  dsimp only
  cases o.side
  all_goals dsimp only [OrderBook.setLevel, OrderBook.levelsOf]
  all_goals repeat' split
  all_goals
    first
      | rfl
      | exact (update_best_bid_fields _ _).2.2.2

theorem remove_order_levelsOf_opp (b : OrderBook) (o : Order) :
    (b.remove_order o).levelsOf o.side.opposite =
      b.levelsOf o.side.opposite := by
  unfold OrderBook.remove_order
  dsimp only
  cases o.side
  all_goals dsimp only [Side.opposite, OrderBook.setLevel, OrderBook.levelsOf]
  all_goals repeat' split
  all_goals
    first
      | rfl
      | exact (update_best_bid_fields _ _).1

theorem findInLevels_go_none (id : Nat) :
    ∀ (ls : List PriceLevel) (j : Nat),
      findInLevels.go id ls j = none ↔
        ∀ l ∈ ls, ∀ o ∈ l.orders, ¬ o.order_id = id := by
  intro ls
  induction ls with
  | nil =>
    intro j
    simp [findInLevels.go]
  | cons l rest ih =>
    intro j
    rw [findInLevels.go]
    cases hf : l.orders.find? (fun o => o.order_id = id) with
    | some o' =>
      constructor
      · intro h
        exact absurd h (by simp)
      · intro h
        have hmem := List.mem_of_find?_eq_some hf
        have hid : o'.order_id = id := by simpa using List.find?_some hf
        exact absurd hid (h l (List.mem_cons_self l rest) o' hmem)
    | none =>
      constructor
      · intro h l2 hl2 o2 ho2
        rcases List.mem_cons.mp hl2 with he | hm
        · subst he
          have := List.find?_eq_none.mp hf o2 ho2
          simpa using this
        · exact (ih (j + 1)).mp h l2 hm o2 ho2
      · intro h
        exact (ih (j + 1)).mpr
          (fun l2 hl2 o2 ho2 => h l2 (List.mem_cons_of_mem l hl2) o2 ho2)

theorem findOrder_none_iff (b : OrderBook) (id : Nat) :
    b.findOrder id = none ↔
      (∀ l ∈ b.bid_levels, ∀ o ∈ l.orders, ¬ o.order_id = id) ∧
      (∀ l ∈ b.ask_levels, ∀ o ∈ l.orders, ¬ o.order_id = id) := by
  unfold OrderBook.findOrder findInLevels
  cases hb : findInLevels.go id b.bid_levels 0 with
  | some p =>
    obtain ⟨i', o'⟩ := p
    constructor
    · intro h
      exact absurd h (by simp)
    · intro h
      obtain ⟨_, hmem, hid⟩ := findInLevels_go_spec id b.bid_levels 0 i' o' hb
      simp only [Nat.sub_zero] at hmem
      have hlt : i' < b.bid_levels.length := by
        by_contra hc
        rw [List.getD_eq_default _ _ (Nat.le_of_not_lt hc)] at hmem
        exact absurd hmem (List.not_mem_nil o')
      have hl2 : b.bid_levels.getD i' PriceLevel.zero ∈ b.bid_levels := by
        rw [List.getD_eq_getElem?_getD]
        simp only [List.getElem?_eq_getElem hlt, Option.getD_some]
        exact List.getElem_mem hlt
      exact absurd hid (h.1 _ hl2 o' hmem)
  | none =>
    cases ha : findInLevels.go id b.ask_levels 0 with
    | some p =>
      obtain ⟨i', o'⟩ := p
      constructor
      · intro h
        exact absurd h (by simp)
      · intro h
        obtain ⟨_, hmem, hid⟩ := findInLevels_go_spec id b.ask_levels 0 i' o' ha
        simp only [Nat.sub_zero] at hmem
        have hlt : i' < b.ask_levels.length := by
          by_contra hc
          rw [List.getD_eq_default _ _ (Nat.le_of_not_lt hc)] at hmem
          exact absurd hmem (List.not_mem_nil o')
        have hl2 : b.ask_levels.getD i' PriceLevel.zero ∈ b.ask_levels := by
          rw [List.getD_eq_getElem?_getD]
          simp only [List.getElem?_eq_getElem hlt, Option.getD_some]
          exact List.getElem_mem hlt
        exact absurd hid (h.2 _ hl2 o' hmem)
    | none =>
      constructor
      · intro h
        exact ⟨(findInLevels_go_none id b.bid_levels 0).mp hb,
               (findInLevels_go_none id b.ask_levels 0).mp ha⟩
      · intro h
        rfl

theorem findOrder_remove_none (b : OrderBook) (id : Nat) (s : Side) (i : Nat)
    (o : Order) (hwf : BookWF b) (hnd : BookIdsNodup b)
    (hfind : b.findOrder id = some (s, i, o)) :
    (b.remove_order o).findOrder id = none := by
  obtain ⟨hmem, hid⟩ := findOrder_spec b id s i o hfind
  have hilt : i < b.num_levels := mem_level_idx_lt b s i o hwf hmem
  obtain ⟨hop, hov, hoi, hos⟩ := hwf.2.2.2.2 s i hilt o hmem
  have hlen : i < (b.levelsOf s).length := by
    obtain ⟨_, _, hbl, hal, _⟩ := hwf
    cases s <;> simp only [OrderBook.levelsOf] <;> omega
  have hle1 := countP_le_one_of_nodup id
    (b.ordersOnSide Side.buy ++ b.ordersOnSide Side.sell) hnd
  rw [List.countP_append] at hle1
  have hpos : 0 < (b.ordersOnSide s).countP (fun o => o.order_id == id) :=
    List.countP_pos_iff.mpr ⟨o, mem_ordersOnSide b s i o hlen hmem, by simp [hid]⟩
  have hopp_zero : (b.ordersOnSide s.opposite).countP
      (fun o => o.order_id == id) = 0 := by
    cases s <;> dsimp only [Side.opposite] at hpos ⊢ <;> omega
  have hside_one : (b.ordersOnSide s).countP
      (fun o => o.order_id == id) = 1 := by
    cases s <;> omega
  have hsame := remove_order_levelsOf_same b o
  rw [hos, hoi] at hsame
  have hopp := remove_order_levelsOf_opp b o
  rw [hos] at hopp
  have hlevel_count : ((b.levelAt s i).orders.countP
      (fun o => o.order_id == id)) =
      ((PriceLevel.remove_order (b.levelAt s i) o).orders.countP
        (fun o => o.order_id == id)) + 1 := by
    have := countP_eraseById id (b.levelAt s i).orders ⟨o, hmem, hid⟩
    simp only [PriceLevel.remove_order, hid]
    omega
  have hmapfuse : List.map (List.countP (fun o => o.order_id == id))
      (List.map PriceLevel.orders (b.levelsOf s)) =
      List.map (fun l => l.orders.countP (fun o => o.order_id == id))
        (b.levelsOf s) := by
    rw [List.map_map]
    rfl
  have hss := sum_set_nat
    (List.map (fun l => l.orders.countP (fun o => o.order_id == id))
      (b.levelsOf s)) i
    ((PriceLevel.remove_order (b.levelAt s i) o).orders.countP
      (fun o => o.order_id == id))
    (by simpa using hlen)
  rw [getD_map_countP _ _ _ hlen] at hss
  have hold_sum : (List.map
      (fun l => l.orders.countP (fun o => o.order_id == id))
      (b.levelsOf s)).sum =
      (b.ordersOnSide s).countP (fun o => o.order_id == id) := by
    unfold OrderBook.ordersOnSide
    rw [countP_flatten_levels, hmapfuse]
  have hnew_same : ((b.remove_order o).ordersOnSide s).countP
      (fun o => o.order_id == id) = 0 := by
    unfold OrderBook.ordersOnSide
    rw [hsame, List.map_set, countP_flatten_levels, List.map_set, hmapfuse]
    have hgetd : (b.levelsOf s).getD i PriceLevel.zero = b.levelAt s i := rfl
    rw [hgetd] at hss
    omega
  have hnew_opp : ((b.remove_order o).ordersOnSide s.opposite).countP
      (fun o => o.order_id == id) = 0 := by
    unfold OrderBook.ordersOnSide
    rw [hopp]
    unfold OrderBook.ordersOnSide at hopp_zero
    exact hopp_zero
  have hforall : ∀ s', ((b.remove_order o).ordersOnSide s').countP
      (fun o => o.order_id == id) = 0 →
      ∀ l ∈ (b.remove_order o).levelsOf s', ∀ o2 ∈ l.orders,
        ¬ o2.order_id = id := by
    intro s' hz l hl o2 ho2
    have hz' : (((b.remove_order o).levelsOf s').map
        PriceLevel.orders).flatten.countP (fun o => o.order_id == id) = 0 := by
      unfold OrderBook.ordersOnSide at hz
      exact hz
    have := no_id_of_flatten_count_zero _ _ hz' l hl o2 ho2
    simpa using this
  rw [findOrder_none_iff]
  constructor
  · cases s with
    | buy => exact hforall Side.buy hnew_same
    | sell => exact hforall Side.buy hnew_opp
  · cases s with
    | buy => exact hforall Side.sell hnew_opp
    | sell => exact hforall Side.sell hnew_same

theorem sub64_of_le (a b : Nat) (hba : b ≤ a) (ha : a < U64) :
    sub64 a b = a - b := by
  unfold sub64
  rw [Nat.mod_eq_of_lt (Nat.lt_of_le_of_lt hba ha)]
  have h1 : a + U64 - b = (a - b) + U64 := by omega
  rw [h1, Nat.add_mod_right]
  exact Nat.mod_eq_of_lt (by omega)

theorem submit_order_status_ne_rejected (stp : SelfTradePreventionMode)
    (st : EngineState) (o : Order)
    (hm : o.type ≠ OrderType.market) (hio : o.type ≠ OrderType.ioc)
    (hfk : o.type ≠ OrderType.fok)
    (hval : st.book.is_valid_price o.price = true) :
    (submit_order stp st o).2.status ≠ MatchStatus.rejected := by
  have hty := match_loop_order_type stp (submitFuel st) st o
    { status := MatchStatus.rejected
      trades := []
      filled_quantity := 0
      remaining_quantity := o.remaining_quantity }
  unfold submit_order
  dsimp only
  split
  case isTrue h => exact absurd hval h.2
  case isFalse h1 =>
    split
    case isTrue h => exact absurd h.1 hfk
    case isFalse h2 =>
      split
      case isTrue h =>
        rw [h]
        decide
      case isFalse h3 =>
        split
        case isTrue h =>
          intro hc
          exact MatchStatus.noConfusion hc
        case isFalse h4 =>
          split
          case isTrue h =>
            rcases h with h | h
            · exact absurd (hty.symm.trans h) hm
            · exact absurd (hty.symm.trans h) hio
          case isFalse h5 =>
            split
            case isTrue h => exact absurd (hty.symm.trans h) hfk
            case isFalse h6 =>
              split
              all_goals intro hc
              all_goals exact MatchStatus.noConfusion hc

theorem add_order_success_levelAt (b : OrderBook) (o : Order) (s : Side)
    (i : Nat) (hs : o.side = s) (hi : b.price_to_index o.price = i)
    (h : i < (b.levelsOf s).length) :
    ((b.add_order_success o).levelAt s i).orders =
      (b.levelAt s i).orders ++ [{ o with status := OrderStatus.accepted }] := by
  subst hs
  subst hi
  unfold OrderBook.add_order_success
  dsimp only
  cases hsd : o.side
  all_goals rw [hsd] at h
  all_goals dsimp only [OrderBook.setLevel]
  case buy =>
    rw [levelAt_buy_eq_getD]
    dsimp only
    rw [getD_set_self _ _ _ (by simpa [OrderBook.levelsOf] using h)]
    simp [PriceLevel.add_order]
  case sell =>
    rw [levelAt_sell_eq_getD]
    dsimp only
    rw [getD_set_self _ _ _ (by simpa [OrderBook.levelsOf] using h)]
    simp [PriceLevel.add_order]

/-- C5: For a resting order, a modify with a valid new price and
`new_quantity > filled_quantity` detaches the order and resubmits it under
the new terms: when the resubmitted order does not cross, the command
reports `Modified` and the order rests at the BACK of the FIFO at the new
price (even when price and quantity are unchanged), with order id and
`filled_quantity` preserved; and modify is rejected exactly when the id is
not found, the new price is invalid, or `new_quantity ≤ filled_quantity`. -/
theorem c5_modify_detach_and_resubmit (stp : SelfTradePreventionMode)
    (st : EngineState) (id : Nat) (new_price : Int) (new_qty new_ts : Nat)
    (hwf : BookWF st.book) (hnd : BookIdsNodup st.book)
    (hid0 : id ≠ 0) (hqU : new_qty < U64)
    (hty : ∀ s i o, st.book.findOrder id = some (s, i, o) →
      o.type ≠ OrderType.market ∧ o.type ≠ OrderType.ioc ∧
        o.type ≠ OrderType.fok) :
    ((modify_order stp st id new_price new_qty new_ts).2.status =
        MatchStatus.rejected ↔
      (st.book.is_valid_price new_price = false ∨
       st.book.findOrder id = none ∨
       ∃ s i o, st.book.findOrder id = some (s, i, o) ∧
         new_qty ≤ o.filled_quantity)) ∧
    (∀ s i o, st.book.findOrder id = some (s, i, o) →
      st.book.is_valid_price new_price = true →
      o.filled_quantity < new_qty →
      (∀ lv, bestOppositeLevel (st.book.remove_order o) o.side = some lv →
        price_crosses
          { o with
            price := new_price, quantity := new_qty,
            visible_quantity := new_qty, timestamp := new_ts } lv = false) →
      (modify_order stp st id new_price new_qty new_ts).2.status =
        MatchStatus.modified ∧
      ∃ stored,
        ((modify_order stp st id new_price new_qty new_ts).1.book.levelAt
            o.side (st.book.price_to_index new_price)).orders.getLast? =
          some stored ∧
        stored.order_id = id ∧
        stored.filled_quantity = o.filled_quantity ∧
        stored.price = new_price ∧ stored.quantity = new_qty ∧
        stored.timestamp = new_ts) := by
  constructor
  · by_cases hval : st.book.is_valid_price new_price = true
    · cases hfo : st.book.findOrder id with
      | none =>
        have hstat : (modify_order stp st id new_price new_qty
            new_ts).2.status = MatchStatus.rejected := by
          unfold modify_order
          dsimp only
          rw [if_neg (not_not_intro hval), hfo]
        exact iff_of_true hstat (Or.inr (Or.inl rfl))
      | some p =>
        obtain ⟨s, i, o⟩ := p
        by_cases hle : new_qty ≤ o.filled_quantity
        · have hstat : (modify_order stp st id new_price new_qty
              new_ts).2.status = MatchStatus.rejected := by
            unfold modify_order
            dsimp only
            rw [if_neg (not_not_intro hval), hfo]
            dsimp only
            rw [if_pos hle]
          exact iff_of_true hstat (Or.inr (Or.inr ⟨s, i, o, rfl, hle⟩))
        · have hne : (modify_order stp st id new_price new_qty
              new_ts).2.status ≠ MatchStatus.rejected := by
            unfold modify_order
            dsimp only
            rw [if_neg (not_not_intro hval), hfo]
            dsimp only
            rw [if_neg hle]
            obtain ⟨hm, hio, hfk⟩ := hty s i o hfo
            have hval' : (st.book.remove_order o).is_valid_price
                new_price = true := by
              rw [remove_order_valid_price]
              exact hval
            have hsub := submit_order_status_ne_rejected stp
              { st with book := st.book.remove_order o }
              { o with
                price := new_price, quantity := new_qty,
                visible_quantity := new_qty, timestamp := new_ts }
              hm hio hfk hval'
            split
            · intro hc
              exact MatchStatus.noConfusion hc
            · exact hsub
          constructor
          · intro hc
            exact absurd hc hne
          · intro hr
            rcases hr with h | h | ⟨s', i', o', he, hle'⟩
            · rw [hval] at h
              exact Bool.noConfusion h
            · exact Option.noConfusion h
            · have h3 : o = o' :=
                congrArg (fun q => q.2.2) (Option.some.inj he)
              rw [← h3] at hle'
              exact absurd hle' hle
    · have hstat : (modify_order stp st id new_price new_qty
          new_ts).2.status = MatchStatus.rejected := by
        unfold modify_order
        dsimp only
        rw [if_pos (fun hh => hval hh)]
      exact iff_of_true hstat
        (Or.inl (by simpa using hval))
  · intro s i o hfo hval hlt hnc
    obtain ⟨hm, hio, hfk⟩ := hty s i o hfo
    obtain ⟨hmem, hid⟩ := findOrder_spec st.book id s i o hfo
    have hnone := findOrder_remove_none st.book id s i o hwf hnd hfo
    have hwf' : BookWF (st.book.remove_order o) :=
      bookWF_remove_order st.book o hwf
    have hval' : (st.book.remove_order o).is_valid_price new_price = true := by
      rw [remove_order_valid_price]
      exact hval
    have hrem : ({ o with
        price := new_price, quantity := new_qty,
        visible_quantity := new_qty, timestamp := new_ts } :
          Order).remaining_quantity = new_qty - o.filled_quantity := by
      unfold Order.remaining_quantity
      dsimp only
      exact sub64_of_le _ _ (Nat.le_of_lt hlt) hqU
    have hsub : submit_order stp { st with book := st.book.remove_order o }
        { o with
          price := new_price, quantity := new_qty,
          visible_quantity := new_qty, timestamp := new_ts } =
        ({ st with book := ((st.book.remove_order o).add_order
            { o with
              price := new_price, quantity := new_qty,
              visible_quantity := new_qty, timestamp := new_ts }).2 },
         { status := MatchStatus.resting, trades := [], filled_quantity := 0,
           remaining_quantity :=
             ({ o with
               price := new_price, quantity := new_qty,
               visible_quantity := new_qty, timestamp := new_ts } :
                 Order).remaining_quantity }) := by
      unfold submit_order
      dsimp only
      rw [if_neg (fun hh => hh.2 hval')]
      rw [if_neg (fun hh => hfk hh.1)]
      simp only [submitFuel]
      rw [match_loop_no_cross stp _ _ _ _ (fun lv hlv => hnc lv hlv)]
      dsimp only
      rw [if_neg (fun hc => MatchStatus.noConfusion hc)]
      rw [if_neg (show ¬(({ o with
        price := new_price, quantity := new_qty,
        visible_quantity := new_qty, timestamp := new_ts } :
          Order).remaining_quantity = 0) by rw [hrem]; omega)]
      rw [if_neg (fun hc => hc.elim hm hio)]
      rw [if_neg hfk]
      rw [if_neg (show ¬((0 : Nat) > 0) by omega)]
      rw [if_neg (show ¬((0 : Nat) > 0) by omega)]
    have hmod : modify_order stp st id new_price new_qty new_ts =
        ({ st with book := ((st.book.remove_order o).add_order
            { o with
              price := new_price, quantity := new_qty,
              visible_quantity := new_qty, timestamp := new_ts }).2 },
         { status := MatchStatus.modified, trades := [], filled_quantity := 0,
           remaining_quantity :=
             ({ o with
               price := new_price, quantity := new_qty,
               visible_quantity := new_qty, timestamp := new_ts } :
                 Order).remaining_quantity }) := by
      unfold modify_order
      dsimp only
      rw [if_neg (not_not_intro hval), hfo]
      dsimp only
      rw [if_neg (fun hh => absurd hlt (Nat.not_lt.mpr hh))]
      rw [hsub]
      dsimp only
      rw [if_pos rfl]
    have hidx : st.book.price_to_index new_price <
        ((st.book.remove_order o).levelsOf o.side).length := by
      have h2 := remove_order_price_to_index st.book o new_price
      have h3 := valid_price_idx_lt (st.book.remove_order o) hwf'.1
        hwf'.2.1 new_price hval'
      rw [h2] at h3
      have h4 : ((st.book.remove_order o).levelsOf o.side).length =
          (st.book.remove_order o).num_levels := by
        obtain ⟨_, _, hbl, hal, _⟩ := hwf'
        cases o.side <;> simp only [OrderBook.levelsOf] <;> omega
      omega
    have hns : ¬(o.order_id = 0 ∨
        ((st.book.remove_order o).findOrder o.order_id).isSome = true) := by
      rw [hid, hnone]
      simp [hid0]
    have hadd : ((st.book.remove_order o).add_order
        { o with
          price := new_price, quantity := new_qty,
          visible_quantity := new_qty, timestamp := new_ts }).2 =
        (st.book.remove_order o).add_order_success
          { o with
            price := new_price, quantity := new_qty,
            visible_quantity := new_qty, timestamp := new_ts } := by
      unfold OrderBook.add_order
      dsimp only
      rw [if_neg (not_not_intro hval')]
      rw [if_neg hns]
    refine ⟨by rw [hmod], ?_⟩
    refine ⟨{ o with
        price := new_price, quantity := new_qty,
        visible_quantity := new_qty, timestamp := new_ts,
        status := OrderStatus.accepted }, ?_, hid, rfl, rfl, rfl, rfl⟩
    rw [hmod]
    dsimp only
    rw [hadd]
    rw [add_order_success_levelAt (st.book.remove_order o) _ o.side
      (st.book.price_to_index new_price) (by exact rfl)
      (by exact remove_order_price_to_index st.book o new_price) hidx]
    rw [List.getLast?_concat]

/-- C5 witness: the modify theorem applied to the concrete two-order book
`c5St` (buys id 1 qty 100 and id 2 qty 80, both at price 5), modifying
order 1 to the same price and quantity. -/
theorem c5_modify_witness :
    BookWF c5St.book ∧ BookIdsNodup c5St.book ∧
    (modify_order SelfTradePreventionMode.none c5St 1 5 100 7).2.status ≠
      MatchStatus.rejected := by
  refine ⟨by decide, by decide, ?_⟩
  intro hc
  have hty : ∀ s i o, c5St.book.findOrder 1 = some (s, i, o) →
      o.type ≠ OrderType.market ∧ o.type ≠ OrderType.ioc ∧
        o.type ≠ OrderType.fok := by
    intro s i o h
    have h0 : ∀ p ∈ c5St.book.findOrder 1, p.2.2.type ≠ OrderType.market ∧
        p.2.2.type ≠ OrderType.ioc ∧ p.2.2.type ≠ OrderType.fok := by
      decide
    exact h0 (s, i, o) (by rw [h]; exact rfl)
  have hr := (c5_modify_detach_and_resubmit SelfTradePreventionMode.none
    c5St 1 5 100 7 (by decide) (by decide) (by decide) (by decide) hty).1.mp hc
  have h0 : ∀ p ∈ c5St.book.findOrder 1, ¬(100 ≤ p.2.2.filled_quantity) := by
    decide
  have hsome : (c5St.book.findOrder 1).isSome = true := by decide
  rcases hr with h | h | ⟨s, i, o, he, hle⟩
  · exact absurd h (by decide)
  · rw [h] at hsome
    exact Bool.noConfusion hsome
  · exact h0 (s, i, o) (by rw [he]; exact rfl) hle


/-! ## Trade prices come from resting orders (C2) -/

theorem ordersOnSide_setLevel (b : OrderBook) (s : Side) (idx : Nat)
    (l' : PriceLevel) (s' : Side) :
    ∀ r ∈ (b.setLevel s idx l').ordersOnSide s',
      (s' = s ∧ r ∈ l'.orders) ∨ r ∈ b.ordersOnSide s' := by
  intro r hr
  by_cases hss : s = s'
  · subst hss
    unfold OrderBook.ordersOnSide at hr
    rw [levelsOf_setLevel_same] at hr
    rw [List.mem_flatten] at hr
    obtain ⟨os, hos, hros⟩ := hr
    rw [List.map_set] at hos
    rcases List.mem_or_eq_of_mem_set hos with hold | hnew
    · right
      unfold OrderBook.ordersOnSide
      rw [List.mem_flatten]
      exact ⟨os, hold, hros⟩
    · subst hnew
      exact Or.inl ⟨rfl, hros⟩
  · right
    unfold OrderBook.ordersOnSide at hr ⊢
    rw [levelsOf_setLevel_other _ _ _ _ _ hss] at hr
    exact hr

theorem ordersOnSide_remove (b : OrderBook) (o : Order) (s' : Side) :
    ∀ r ∈ (b.remove_order o).ordersOnSide s', r ∈ b.ordersOnSide s' := by
  intro r hr
  by_cases hss : o.side = s'
  · have hsame := remove_order_levelsOf_same b o
    rw [hss] at hsame
    unfold OrderBook.ordersOnSide at hr
    rw [hsame, List.mem_flatten] at hr
    obtain ⟨os, hos, hros⟩ := hr
    rw [List.map_set] at hos
    rcases List.mem_or_eq_of_mem_set hos with hold | hnew
    · unfold OrderBook.ordersOnSide
      rw [List.mem_flatten]
      exact ⟨os, hold, hros⟩
    · subst hnew
      have hr' : r ∈ (b.levelAt o.side (b.price_to_index o.price)).orders := by
        rw [hss]
        exact eraseById_subset _ _ r (by
          have : (PriceLevel.remove_order
              (b.levelAt s' (b.price_to_index o.price)) o).orders =
            eraseById (b.levelAt s' (b.price_to_index o.price)).orders
              o.order_id := rfl
          rw [← this]
          exact hros)
      rw [hss] at hr'
      have hne : (b.levelAt s' (b.price_to_index o.price)).orders ≠ [] := by
        intro hnil
        rw [hnil] at hr'
        exact absurd hr' (List.not_mem_nil r)
      exact mem_ordersOnSide b s' _ r
        (lt_length_of_orders_ne_nil b s' _ hne) hr'
  · have hopp := remove_order_levelsOf_opp b o
    have hs2 : o.side.opposite = s' := by
      cases hsd : o.side <;> cases hsd2 : s' <;>
        first
          | rfl
          | (exfalso; rw [hsd, hsd2] at hss; exact hss rfl)
    rw [hs2] at hopp
    unfold OrderBook.ordersOnSide at hr ⊢
    rw [hopp] at hr
    exact hr

theorem add_order_success_levelsOf (b : OrderBook) (o : Order) (s' : Side) :
    (b.add_order_success o).levelsOf s' =
      ((b.setLevel o.side (b.price_to_index o.price)
        (PriceLevel.add_order
          { b.levelAt o.side (b.price_to_index o.price) with price := o.price }
          { o with status := OrderStatus.accepted })).levelsOf s') := by
  unfold OrderBook.add_order_success
  dsimp only
  cases o.side <;> cases s' <;> rfl

theorem ordersOnSide_add (b : OrderBook) (o : Order) (s' : Side) :
    ∀ r ∈ ((b.add_order o).2).ordersOnSide s',
      r ∈ b.ordersOnSide s' ∨
        (r.order_id = o.order_id ∧ r.price = o.price) := by
  intro r hr
  unfold OrderBook.add_order at hr
  split at hr
  · exact Or.inl hr
  split at hr
  · exact Or.inl hr
  have hlv : (b.add_order_success o).ordersOnSide s' =
      ((b.setLevel o.side (b.price_to_index o.price)
        (PriceLevel.add_order
          { b.levelAt o.side (b.price_to_index o.price) with price := o.price }
          { o with status := OrderStatus.accepted })).ordersOnSide s') := by
    unfold OrderBook.ordersOnSide
    rw [add_order_success_levelsOf]
  rw [hlv] at hr
  rcases ordersOnSide_setLevel b o.side (b.price_to_index o.price) _ s' r hr
    with ⟨hss, hmem⟩ | hold
  · have : r ∈ ({ b.levelAt o.side (b.price_to_index o.price) with
        price := o.price } : PriceLevel).orders ++
        [{ o with status := OrderStatus.accepted }] := by
      simpa [PriceLevel.add_order] using hmem
    rcases List.mem_append.mp this with hin | hsto
    · by_cases hlen : b.price_to_index o.price < (b.levelsOf o.side).length
      · exact Or.inl (hss ▸ mem_ordersOnSide b o.side _ r hlen hin)
      · exfalso
        have : (b.levelAt o.side (b.price_to_index o.price)).orders = [] := by
          unfold OrderBook.levelAt
          rw [List.getD_eq_default _ _ (Nat.le_of_not_lt hlen)]
          rfl
        rw [show ({ b.levelAt o.side (b.price_to_index o.price) with
            price := o.price } : PriceLevel).orders =
          (b.levelAt o.side (b.price_to_index o.price)).orders from rfl,
          this] at hin
        exact absurd hin (List.not_mem_nil r)
    · rw [List.mem_singleton.mp hsto]
      exact Or.inr ⟨rfl, rfl⟩
  · exact Or.inl hold

theorem counterpartyId_fillTrade (o r : Order) (fq tid : Nat) :
    counterpartyId o (fillTrade o r fq tid) = r.order_id := by
  cases h : o.side <;> simp [counterpartyId, fillTrade, h]

theorem match_loop_resting_price (stp : SelfTradePreventionMode)
    (P : Nat → Int → Prop) :
    ∀ fuel st o res,
      BookWF st.book →
      (∀ r ∈ st.book.ordersOnSide o.side.opposite, P r.order_id r.price) →
      ∀ t ∈ (match_loop stp fuel st o res).2.2.trades,
        t ∈ res.trades ∨
        (P (counterpartyId o t) t.price ∧
          (o.type = OrderType.market ∨
            ((o.side = Side.buy → t.price ≤ o.price) ∧
             (o.side = Side.sell → o.price ≤ t.price)))) := by
  intro fuel
  induction fuel with
  | zero =>
    intro st o res hwf hinv t ht
    exact Or.inl ht
  | succ n ih =>
    intro st o res hwf hinv t ht
    rw [match_loop] at ht
    dsimp only at ht
    split at ht
    · exact Or.inl ht
    split at ht
    · exact Or.inl ht
    rename_i idx heqidx
    split at ht
    · exact Or.inl ht
    rename_i hcross0
    split at ht
    · exact ih st o res hwf hinv t ht
    rename_i resting tailOrders heqO
    have hrest_mem : resting ∈ (st.book.levelAt o.side.opposite idx).orders := by
      rw [heqO]
      exact List.mem_cons_self _ _
    have hidxlt : idx < st.book.num_levels :=
      mem_level_idx_lt st.book o.side.opposite idx resting hwf hrest_mem
    have hlen : idx < (st.book.levelsOf o.side.opposite).length := by
      obtain ⟨_, _, hbl, hal, _⟩ := hwf
      cases hx : o.side.opposite <;> simp only [OrderBook.levelsOf] <;> omega
    have hcoh := hwf.2.2.2.2 o.side.opposite idx hidxlt
    obtain ⟨hrp, hrv, hri, hrs⟩ := hcoh resting hrest_mem
    have hPrest : P resting.order_id resting.price :=
      hinv resting (mem_ordersOnSide _ _ _ _ hlen hrest_mem)
    have hcross : price_crosses o
        (st.book.levelAt o.side.opposite idx) = true := not_not.mp hcross0
    have hbound : o.type = OrderType.market ∨
        ((o.side = Side.buy → resting.price ≤ o.price) ∧
         (o.side = Side.sell → o.price ≤ resting.price)) := by
      by_cases hmkt : o.type = OrderType.market
      · exact Or.inl hmkt
      · right
        unfold price_crosses at hcross
        rw [if_neg hmkt] at hcross
        constructor
        · intro hb
          rw [hb] at hcross
          simp only [decide_eq_true_eq] at hcross
          rw [hrp, hb]
          exact hcross
        · intro hb
          rw [hb] at hcross
          simp only [decide_eq_true_eq] at hcross
          rw [hrp, hb]
          exact hcross
    split at ht
    · -- self-trade prevention active
      split at ht
      · exact Or.inl ht
      · exact ih _ _ _ (bookWF_remove_order _ _ hwf)
          (fun r hr => hinv r (ordersOnSide_remove _ _ _ r hr)) t ht
      · exact Or.inl ht
      · exact ih st o res hwf hinv t ht
    · -- the fill path
      rename_i hstp
      have hsub : ∀ r ∈ ((execute_fill o resting
          (min o.remaining_quantity resting.remaining_visible)
          (st.book.levelAt o.side.opposite idx)
          st.trade_id_counter res).2.1 :: tailOrders),
          r.price = (st.book.levelAt o.side.opposite idx).price ∧
          st.book.is_valid_price r.price = true ∧
          st.book.price_to_index r.price = idx ∧ r.side = o.side.opposite := by
        intro r hr
        rcases List.mem_cons.mp hr with he | hm
        · subst he
          exact ⟨hrp, hrv, hri, hrs⟩
        · exact hcoh r (by rw [heqO]; exact List.mem_cons_of_mem _ hm)
      have hwf' : BookWF (st.book.setLevel o.side.opposite idx
          { (execute_fill o resting
              (min o.remaining_quantity resting.remaining_visible)
              (st.book.levelAt o.side.opposite idx)
              st.trade_id_counter res).2.2.1 with
            orders := (execute_fill o resting
              (min o.remaining_quantity resting.remaining_visible)
              (st.book.levelAt o.side.opposite idx)
              st.trade_id_counter res).2.1 :: tailOrders }) :=
        bookWF_setLevel st.book o.side.opposite idx _ hwf hsub
      have hinv' : ∀ r ∈ (st.book.setLevel o.side.opposite idx
          { (execute_fill o resting
              (min o.remaining_quantity resting.remaining_visible)
              (st.book.levelAt o.side.opposite idx)
              st.trade_id_counter res).2.2.1 with
            orders := (execute_fill o resting
              (min o.remaining_quantity resting.remaining_visible)
              (st.book.levelAt o.side.opposite idx)
              st.trade_id_counter res).2.1 :: tailOrders }).ordersOnSide
            o.side.opposite, P r.order_id r.price := by
        intro r hr
        rcases ordersOnSide_setLevel _ _ _ _ _ r hr with ⟨_, hmem⟩ | hold
        · rcases List.mem_cons.mp hmem with he | hm
          · subst he
            exact hPrest
          · exact hinv r (mem_ordersOnSide _ _ _ _ hlen
              (by rw [heqO]; exact List.mem_cons_of_mem _ hm))
        · exact hinv r hold
      have hfin : t ∈ (execute_fill o resting
            (min o.remaining_quantity resting.remaining_visible)
            (st.book.levelAt o.side.opposite idx)
            st.trade_id_counter res).2.2.2.2.trades ∨
          (P (counterpartyId o t) t.price ∧
            (o.type = OrderType.market ∨
              ((o.side = Side.buy → t.price ≤ o.price) ∧
               (o.side = Side.sell → o.price ≤ t.price)))) →
          t ∈ res.trades ∨
          (P (counterpartyId o t) t.price ∧
            (o.type = OrderType.market ∨
              ((o.side = Side.buy → t.price ≤ o.price) ∧
               (o.side = Side.sell → o.price ≤ t.price)))) := by
        intro h
        rcases h with hin | hgood
        · have hin' : t ∈ res.trades ++ [fillTrade o resting
              (min o.remaining_quantity resting.remaining_visible)
              (st.trade_id_counter + 1)] := hin
          rcases List.mem_append.mp hin' with h | h
          · exact Or.inl h
          · right
            have hteq := List.mem_singleton.mp h
            subst hteq
            refine ⟨?_, ?_⟩
            · rw [counterpartyId_fillTrade]
              exact hPrest
            · exact hbound
        · exact Or.inr hgood
      split at ht
      · exact hfin (ih _ (execute_fill o resting
            (min o.remaining_quantity resting.remaining_visible)
            (st.book.levelAt o.side.opposite idx)
            st.trade_id_counter res).1 _ (bookWF_remove_order _ _ hwf')
          (fun r hr => hinv' r (ordersOnSide_remove _ _ _ r hr)) t ht)
      · split at ht
        · refine hfin (ih _ (execute_fill o resting
            (min o.remaining_quantity resting.remaining_visible)
            (st.book.levelAt o.side.opposite idx)
            st.trade_id_counter res).1 _
            (bookWF_add_order _ _ (bookWF_remove_order _ _ hwf')) ?_ t ht)
          intro r hr
          rcases ordersOnSide_add _ _ _ r hr with hold | ⟨hid2, hpr2⟩
          · exact hinv' r (ordersOnSide_remove _ _ _ r hold)
          · rw [hid2, hpr2]
            exact hPrest
        · exact hfin (ih _ (execute_fill o resting
            (min o.remaining_quantity resting.remaining_visible)
            (st.book.levelAt o.side.opposite idx)
            st.trade_id_counter res).1 _ hwf' hinv' t ht)

theorem submit_order_trades (stp : SelfTradePreventionMode)
    (st : EngineState) (o : Order) :
    (submit_order stp st o).2.trades =
      (match_loop stp (submitFuel st) st o
        { status := MatchStatus.rejected, trades := [], filled_quantity := 0,
          remaining_quantity := o.remaining_quantity }).2.2.trades ∨
    (submit_order stp st o).2.trades = [] := by
  unfold submit_order
  dsimp only
  repeat' split
  all_goals first | exact Or.inr rfl | exact Or.inl rfl

/-- C2: Every trade generated by a submission prices at the resting
(passive) order's price: each trade's counterparty id and price match a
resting order on the opposite side of the pre-submission book, and for a
non-market aggressor the trade price never exceeds the aggressive buy's
limit (respectively never falls below the aggressive sell's limit) — price
improvement goes to the taker. -/
theorem c2_trade_price_is_resting_price (stp : SelfTradePreventionMode)
    (st : EngineState) (o : Order) (hwf : BookWF st.book) :
    ∀ t ∈ (submit_order stp st o).2.trades,
      ∃ r ∈ st.book.ordersOnSide o.side.opposite,
        r.order_id = counterpartyId o t ∧ t.price = r.price ∧
        (o.type = OrderType.market ∨
          ((o.side = Side.buy → t.price ≤ o.price) ∧
           (o.side = Side.sell → o.price ≤ t.price))) := by
  intro t ht
  rcases submit_order_trades stp st o with heq | heq
  · rw [heq] at ht
    have hres := match_loop_resting_price stp
      (fun i p => ∃ r ∈ st.book.ordersOnSide o.side.opposite,
        r.order_id = i ∧ r.price = p)
      (submitFuel st) st o
      { status := MatchStatus.rejected, trades := [], filled_quantity := 0,
        remaining_quantity := o.remaining_quantity }
      hwf (fun r hr => ⟨r, hr, rfl, rfl⟩) t ht
    rcases hres with hin | ⟨⟨r, hrmem, hrid, hrpr⟩, hb⟩
    · exact absurd hin (List.not_mem_nil t)
    · exact ⟨r, hrmem, hrid, hrpr.symm, hb⟩
  · rw [heq] at ht
    exact absurd ht (List.not_mem_nil t)

/-- C2 witness: the theorem applied to the concrete state `c2St` (resting
sells 50 at 5 and 60 at 6) and the aggressive buy `c2Buy` (80 at limit 6),
which trades against both price levels. -/
theorem c2_trade_price_witness :
    BookWF c2St.book ∧
    ∀ t ∈ (submit_order SelfTradePreventionMode.none c2St c2Buy).2.trades,
      ∃ r ∈ c2St.book.ordersOnSide c2Buy.side.opposite,
        r.order_id = counterpartyId c2Buy t ∧ t.price = r.price ∧
        (c2Buy.type = OrderType.market ∨
          ((c2Buy.side = Side.buy → t.price ≤ c2Buy.price) ∧
           (c2Buy.side = Side.sell → c2Buy.price ≤ t.price))) :=
  ⟨by decide, c2_trade_price_is_resting_price SelfTradePreventionMode.none
    c2St c2Buy (by decide)⟩


/-! ## The SPSC ring against the FIFO queue (C8) -/

theorem ring_refines_aux (capExp : Nat) {α : Type} :
    ∀ (ops : List (RingOp α)) (r : Ring α) (q : List α),
      r.tail ≤ r.head →
      r.head - r.tail = q.length →
      q.length ≤ 2 ^ capExp →
      r.head + countPush ops < U64 →
      (∀ j (hj : j < q.length),
        r.buf ((r.tail + j) % 2 ^ capExp) = q[j]) →
      (runRing capExp ops r).1 = (runSpec (2 ^ capExp) ops q).1 ∧
      ringPending capExp (runRing capExp ops r).2 =
        (runSpec (2 ^ capExp) ops q).2 := by
  intro ops
  induction ops with
  | nil =>
    intro r q h1 h2 h3 h4 h5
    rw [runRing, runSpec]
    refine ⟨rfl, ?_⟩
    unfold ringPending
    apply List.ext_getElem
    · simp [h2]
    · intro i hi1 hi2
      simp only [List.getElem_map, List.getElem_range]
      exact h5 i hi2
  | cons op rest ih =>
    cases op with
    | push v =>
      intro r q h1 h2 h3 h4 h5
      have hcp : countPush (RingOp.push v :: rest) = countPush rest + 1 := rfl
      rw [hcp] at h4
      have hheadU : r.head < U64 := by omega
      rw [runRing, runSpec]
      unfold try_push specPush
      dsimp only
      by_cases hfull : q.length = 2 ^ capExp
      · have hring : sub64 r.head r.tail ≥ 2 ^ capExp := by
          rw [sub64_of_le _ _ h1 hheadU, h2, hfull]
        rw [if_pos hring, if_pos hfull]
        dsimp only
        obtain ⟨ho, hp⟩ := ih r q h1 h2 h3 (by omega) h5
        exact ⟨by rw [ho], hp⟩
      · have hlt : q.length < 2 ^ capExp := Nat.lt_of_le_of_ne h3 hfull
        have hring : ¬ (sub64 r.head r.tail ≥ 2 ^ capExp) := by
          rw [sub64_of_le _ _ h1 hheadU, h2]
          omega
        rw [if_neg hring, if_neg hfull]
        dsimp only
        have hh1 : (r.head + 1) % U64 = r.head + 1 :=
          Nat.mod_eq_of_lt (by omega)
        have hstep := ih
          { r with
              buf := fun j => if j = r.head % 2 ^ capExp then v else r.buf j
              head := (r.head + 1) % U64 }
          (q ++ [v])
          (by dsimp only; rw [hh1]; omega)
          (by dsimp only; rw [hh1]; simp; omega)
          (by simp; omega)
          (by dsimp only; rw [hh1]; omega)
          ?_
        · exact ⟨by rw [hstep.1], hstep.2⟩
        · intro j hj
          dsimp only
          simp only [List.length_append, List.length_singleton] at hj
          by_cases hje : j = q.length
          · subst hje
            have hslot : (r.tail + q.length) % 2 ^ capExp =
                r.head % 2 ^ capExp := by
              have he : r.tail + q.length = r.head := by omega
              rw [he]
            rw [hslot, if_pos rfl]
            simp
          · have hjlt : j < q.length := by omega
            have hne : (r.tail + j) % 2 ^ capExp ≠ r.head % 2 ^ capExp := by
              intro hcong
              have hle : r.tail + j ≤ r.head := by omega
              have hdvd : 2 ^ capExp ∣ r.head - (r.tail + j) :=
                (Nat.modEq_iff_dvd' hle).mp hcong
              have hpos : 0 < r.head - (r.tail + j) := by omega
              have hlecap := Nat.le_of_dvd hpos hdvd
              omega
            rw [if_neg hne, h5 j hjlt]
            rw [List.getElem_append_left hjlt]
    | pop =>
      intro r q h1 h2 h3 h4 h5
      have hcp : countPush (RingOp.pop :: rest) = countPush rest := rfl
      rw [hcp] at h4
      rw [runRing, runSpec]
      cases q with
      | nil =>
        have hemp : r.tail ≥ r.head := by
          simp only [List.length_nil] at h2
          omega
        unfold try_pop specPop
        rw [if_pos hemp]
        dsimp only
        obtain ⟨ho, hp⟩ := ih r [] h1 h2 h3 h4 h5
        exact ⟨by rw [ho], hp⟩
      | cons x xs =>
        have hlen : r.head - r.tail = xs.length + 1 := by
          simpa using h2
        have hlt : r.tail < r.head := by omega
        unfold try_pop specPop
        rw [if_neg (by omega : ¬ r.tail ≥ r.head)]
        dsimp only
        have hx : r.buf (r.tail % 2 ^ capExp) = x := by
          have h0 := h5 0 (by simp)
          rw [Nat.add_zero] at h0
          simpa using h0
        have ht1 : (r.tail + 1) % U64 = r.tail + 1 :=
          Nat.mod_eq_of_lt (by omega)
        have hstep := ih { r with tail := (r.tail + 1) % U64 } xs
          (by dsimp only; rw [ht1]; omega)
          (by dsimp only; rw [ht1]; omega)
          (by simp at h3; omega)
          (by dsimp only; omega)
          ?_
        · exact ⟨by rw [hx, hstep.1], hstep.2⟩
        · intro j hj
          dsimp only
          rw [ht1]
          have hjj := h5 (j + 1) (by simp; omega)
          rw [show r.tail + (j + 1) = r.tail + 1 + j by omega] at hjj
          rw [hjj]
          simp

/-- C8 (amended): as long as fewer than `2^64` pushes are issued, the
sequential SPSC ring refines the bounded FIFO queue: push returns false
exactly when `Capacity` elements are pending, pop returns false exactly
when none are pending, and every pushed value is popped exactly once in
push order. -/
theorem c8_ring_refines_spec (capExp : Nat) {α : Type}
    (ops : List (RingOp α)) (r : Ring α)
    (hh : r.head = 0) (htl : r.tail = 0) (hcnt : countPush ops < U64) :
    (runRing capExp ops r).1 = (runSpec (2 ^ capExp) ops []).1 ∧
    ringPending capExp (runRing capExp ops r).2 =
      (runSpec (2 ^ capExp) ops []).2 :=
  ring_refines_aux capExp ops r []
    (by omega)
    (by simp only [List.length_nil]; omega)
    (by simp)
    (by omega)
    (by intro j hj; simp at hj)

/-- C8 witness: the refinement theorem applied to a concrete operation
sequence (three pushes, a pop, a push into the full two-slot ring, and four
more pops) on a capacity-2 ring. -/
theorem c8_ring_refines_witness :
    countPush c8WitnessOps < U64 ∧
    ((runRing 1 c8WitnessOps ⟨0, 0, fun _ => 0⟩).1 =
      (runSpec (2 ^ 1) c8WitnessOps []).1 ∧
    ringPending 1 (runRing 1 c8WitnessOps ⟨0, 0, fun _ => 0⟩).2 =
      (runSpec (2 ^ 1) c8WitnessOps []).2) :=
  ⟨by decide,
   c8_ring_refines_spec 1 c8WitnessOps ⟨0, 0, fun _ => 0⟩ rfl rfl (by decide)⟩

theorem runRing_append (capExp : Nat) {α : Type} :
    ∀ (ops1 ops2 : List (RingOp α)) (r : Ring α),
      runRing capExp (ops1 ++ ops2) r =
        ((runRing capExp ops1 r).1 ++
          (runRing capExp ops2 (runRing capExp ops1 r).2).1,
         (runRing capExp ops2 (runRing capExp ops1 r).2).2) := by
  intro ops1
  induction ops1 with
  | nil =>
    intro ops2 r
    simp [runRing]
  | cons op rest ih =>
    intro ops2 r
    cases op with
    | push v =>
      rw [List.cons_append, runRing, runRing]
      dsimp only
      rw [ih]
      simp
    | pop =>
      rw [List.cons_append, runRing, runRing]
      dsimp only
      rw [ih]
      simp

theorem runSpec_append (cap : Nat) {α : Type} :
    ∀ (ops1 ops2 : List (RingOp α)) (q : List α),
      runSpec cap (ops1 ++ ops2) q =
        ((runSpec cap ops1 q).1 ++
          (runSpec cap ops2 (runSpec cap ops1 q).2).1,
         (runSpec cap ops2 (runSpec cap ops1 q).2).2) := by
  intro ops1
  induction ops1 with
  | nil =>
    intro ops2 q
    simp [runSpec]
  | cons op rest ih =>
    intro ops2 q
    cases op with
    | push v =>
      rw [List.cons_append, runSpec, runSpec]
      dsimp only
      rw [ih]
      simp
    | pop =>
      rw [List.cons_append, runSpec, runSpec]
      dsimp only
      rw [ih]
      simp

theorem getLast?_append_two {β : Type} (l : List β) (a b : β) :
    (l ++ [a, b]).getLast? = some b := by
  have h : l ++ [a, b] = (l ++ [a]) ++ [b] := by simp
  rw [h, List.getLast?_concat]

theorem ring_round_step (r : Ring Unit) (m : Nat) (hh : r.head = m)
    (htl : r.tail = m) (hm : m + 1 < U64) :
    (runRing 1 [RingOp.push (), RingOp.pop] r).2.head = m + 1 ∧
    (runRing 1 [RingOp.push (), RingOp.pop] r).2.tail = m + 1 := by
  have hsub : sub64 m m = 0 := by
    unfold sub64
    rw [Nat.mod_eq_of_lt (by omega : m < U64)]
    rw [show m + U64 - m = U64 by omega, Nat.mod_self]
  rw [runRing, runRing, runRing]
  unfold try_push
  dsimp only
  rw [hh, htl, hsub]
  rw [if_neg (by omega : ¬ ((0 : Nat) ≥ 2 ^ 1))]
  dsimp only
  unfold try_pop
  dsimp only
  rw [Nat.mod_eq_of_lt hm]
  rw [if_neg (by omega : ¬ (m ≥ m + 1))]
  exact ⟨rfl, rfl⟩

theorem rounds_state :
    ∀ m : Nat, m < U64 →
      (runRing 1 ((List.replicate m [RingOp.push (), RingOp.pop]).flatten)
        ringU0).2.head = m ∧
      (runRing 1 ((List.replicate m [RingOp.push (), RingOp.pop]).flatten)
        ringU0).2.tail = m := by
  intro m
  induction m with
  | zero =>
    intro h
    exact ⟨rfl, rfl⟩
  | succ k ih =>
    intro h
    obtain ⟨hh, htl⟩ := ih (by omega)
    rw [List.replicate_succ', List.flatten_append, runRing_append]
    dsimp only
    simp only [List.flatten_cons, List.flatten_nil, List.append_nil]
    exact ring_round_step _ k hh htl (by omega)

theorem spec_rounds :
    ∀ m : Nat,
      (runSpec (2 ^ 1)
        ((List.replicate m [RingOp.push (), RingOp.pop]).flatten)
        ([] : List Unit)).2 = [] := by
  intro m
  induction m with
  | zero => rfl
  | succ k ih =>
    rw [List.replicate_succ', List.flatten_append, runSpec_append]
    dsimp only
    simp only [List.flatten_cons, List.flatten_nil, List.append_nil]
    rw [ih]
    rfl

theorem runRing_append_fst (capExp : Nat) {α : Type}
    (ops1 ops2 : List (RingOp α)) (r : Ring α) :
    (runRing capExp (ops1 ++ ops2) r).1 =
      (runRing capExp ops1 r).1 ++
        (runRing capExp ops2 (runRing capExp ops1 r).2).1 := by
  rw [runRing_append]

theorem runSpec_append_fst (cap : Nat) {α : Type}
    (ops1 ops2 : List (RingOp α)) (q : List α) :
    (runSpec cap (ops1 ++ ops2) q).1 =
      (runSpec cap ops1 q).1 ++
        (runSpec cap ops2 (runSpec cap ops1 q).2).1 := by
  rw [runSpec_append]

theorem ring_final_step (r : Ring Unit) (hh : r.head = U64 - 1)
    (htl : r.tail = U64 - 1) :
    (runRing 1 [RingOp.push (), RingOp.pop] r).1 =
      [RingOut.pushed true, RingOut.popped none] := by
  have hsub : sub64 (U64 - 1) (U64 - 1) = 0 := by
    unfold sub64
    rw [Nat.mod_eq_of_lt (show U64 - 1 < U64 by have := U64_pos; omega)]
    rw [show U64 - 1 + U64 - (U64 - 1) = U64 by have := U64_pos; omega,
      Nat.mod_self]
  rw [runRing, runRing, runRing]
  unfold try_push
  dsimp only
  rw [hh, htl, hsub]
  rw [if_neg (by omega : ¬ ((0 : Nat) ≥ 2 ^ 1))]
  dsimp only
  unfold try_pop
  dsimp only
  rw [show U64 - 1 + 1 = U64 by have := U64_pos; omega, Nat.mod_self]
  rw [if_pos (Nat.zero_le (U64 - 1))]

/-- C8 as stated is refuted at the 64-bit wrap: starting from the zero
ring, 2^64 - 1 push/pop rounds leave head = tail = 2^64 - 1; one more
successful push wraps the stored head to 0, and the raw `tail >= head`
comparison of `try_pop` (spsc_ring_buffer.h:61) then reports the ring
empty even though one element is pending, while the FIFO specification
pops the pushed value. -/
theorem c8_pop_empty_after_wrap_counterexample :
    (runRing 1 c8Ops ringU0).1.getLast? = some (RingOut.popped none) ∧
    (runSpec (2 ^ 1) c8Ops ([] : List Unit)).1.getLast? =
      some (RingOut.popped (some ())) := by
  constructor
  · unfold c8Ops
    rw [runRing_append_fst]
    obtain ⟨hh, htl⟩ := rounds_state (U64 - 1) (by have := U64_pos; omega)
    rw [ring_final_step _ hh htl]
    exact getLast?_append_two _ _ _
  · unfold c8Ops
    rw [runSpec_append_fst]
    rw [spec_rounds]
    have hfin : (runSpec (2 ^ 1) [RingOp.push (), RingOp.pop]
        ([] : List Unit)).1 =
        [RingOut.pushed true, RingOut.popped (some ())] := rfl
    rw [hfin]
    exact getLast?_append_two _ _ _

end HftOrderBook
